import Mathlib

/-!
# Verification of the proxy-router frame codec and control handlers

Shallow embedding of the Rust sources of the `proxy` repository
(`src/utils.rs`, `src/functions.rs`, `src/server/master.rs`,
`src/client/socket.rs`).  Byte vectors (`Vec<u8>`) are modelled as
`List Nat`; Rust `String`s are modelled by their UTF-8 byte lists, so
`String::from_utf8` becomes a validity check that returns the same bytes.
Machine integers (`u8`, `u16`) are modelled as `Nat` with explicit bounds
or reductions modulo `2^8` where overflow matters.
-/

namespace ProxyProof

/-! ## ASCII helpers

`str::to_lowercase` is modelled on the ASCII range, which is the only range
the sources compare against (the match arms `"data"`, `"close"`, … are all
ASCII). -/

def asciiLower (c : Nat) : Nat := if 65 ≤ c ∧ c ≤ 90 then c + 32 else c

def lowerStr (s : List Nat) : List Nat := s.map asciiLower

/-! ## UTF-8 validity, modelling `String::from_utf8`

The byte-level validity predicate of RFC 3629 as implemented by Rust's
standard library (no overlong forms, no surrogates, max U+10FFFF).
`rustFromUtf8` models `String::from_utf8`: on valid input the string holds
exactly the input bytes. -/

/-- Continuation-byte range table for a UTF-8 leading byte: `none` for an
invalid leading byte, otherwise the list of inclusive ranges the following
bytes must fall in (no overlong forms, no surrogates, max U+10FFFF). -/
def utf8ContRanges (b : Nat) : Option (List (Nat × Nat)) :=
  if b ≤ 0x7F then some []
  else if 0xC2 ≤ b ∧ b ≤ 0xDF then some [(0x80, 0xBF)]
  else if b = 0xE0 then some [(0xA0, 0xBF), (0x80, 0xBF)]
  else if (0xE1 ≤ b ∧ b ≤ 0xEC) ∨ b = 0xEE ∨ b = 0xEF then
    some [(0x80, 0xBF), (0x80, 0xBF)]
  else if b = 0xED then some [(0x80, 0x9F), (0x80, 0xBF)]
  else if b = 0xF0 then some [(0x90, 0xBF), (0x80, 0xBF), (0x80, 0xBF)]
  else if 0xF1 ≤ b ∧ b ≤ 0xF3 then
    some [(0x80, 0xBF), (0x80, 0xBF), (0x80, 0xBF)]
  else if b = 0xF4 then some [(0x80, 0x8F), (0x80, 0xBF), (0x80, 0xBF)]
  else none

/-- Consume the continuation bytes of one code point, returning the rest. -/
def utf8TakeCont : List (Nat × Nat) → List Nat → Option (List Nat)
  | [], rest => some rest
  | (lo, hi) :: rs, c :: rest =>
    if lo ≤ c ∧ c ≤ hi then utf8TakeCont rs rest else none
  | _ :: _, [] => none

/-- Fuelled validity loop; the fuel only drives structural recursion and is
always at least the length of the list, which strictly decreases. -/
def utf8ValidFuel : Nat → List Nat → Bool
  | _, [] => true
  | 0, _ :: _ => false
  | fuel + 1, b :: rest =>
    match utf8ContRanges b with
    | none => false
    | some rs =>
      match utf8TakeCont rs rest with
      | none => false
      | some r => utf8ValidFuel fuel r

def utf8Valid (s : List Nat) : Bool := utf8ValidFuel s.length s

def rustFromUtf8 (s : List Nat) : Option (List Nat) :=
  if utf8Valid s then some s else none

theorem utf8ValidFuel_of_ascii :
    ∀ (fuel : Nat) (s : List Nat), (∀ c ∈ s, c ≤ 0x7F) → s.length ≤ fuel →
      utf8ValidFuel fuel s = true := by
  intro fuel
  induction fuel with
  | zero =>
    intro s h hlen
    cases s with
    | nil => rfl
    | cons b rest => simp at hlen
  | succ fuel ih =>
    intro s h hlen
    cases s with
    | nil => rfl
    | cons b rest =>
      have hb : b ≤ 0x7F := h b (List.mem_cons_self _ _)
      rw [utf8ValidFuel]
      rw [utf8ContRanges, if_pos hb]
      exact ih rest (fun c hc => h c (List.mem_cons_of_mem _ hc))
        (by simpa using Nat.le_of_succ_le_succ hlen)

theorem utf8Valid_of_ascii {s : List Nat} (h : ∀ c ∈ s, c ≤ 0x7F) :
    utf8Valid s = true :=
  utf8ValidFuel_of_ascii s.length s h (Nat.le_refl _)

theorem rustFromUtf8_ascii {s : List Nat} (h : ∀ c ∈ s, c ≤ 0x7F) :
    rustFromUtf8 s = some s := by
  unfold rustFromUtf8
  rw [utf8Valid_of_ascii h]
  rfl

/-! ## The `split` function (`src/utils.rs:312` and, verbatim identical,
`src/functions.rs:203`)

The Rust loop walks the packet byte by byte, counting `i` up from 0 before
each comparison, matching the separator incrementally through
`separator_index` and a `cache` of the partially matched bytes.  On a full
match it returns the accumulated `first_part` and `packet.split_at(i).1`
(everything after the match).  On a mismatch a non-empty cache is flushed
into `first_part` followed by the current byte.  `separator[separator_index]`
is modelled with `getD`; in every reachable state `separator_index <
separator.length`, so the default is never consulted. -/

def splitLoop (packet separator : List Nat) :
    List Nat → List Nat → List Nat → Nat → Nat → Option (List Nat × List Nat)
  | [], _, _, _, _ => none
  | byte :: rest, firstPart, cache, sepIdx, i =>
    if byte = separator.getD sepIdx 0 then
      if separator.length ≤ sepIdx + 1 then
        some (firstPart, packet.drop (i + 1))
      else
        splitLoop packet separator rest firstPart (cache ++ [byte]) (sepIdx + 1) (i + 1)
    else
      let firstPart := if 0 < sepIdx then firstPart ++ cache else firstPart
      let cache := if 0 < sepIdx then [] else cache
      splitLoop packet separator rest (firstPart ++ [byte]) cache 0 (i + 1)

def split (packet separator : List Nat) : Option (List Nat × List Nat) :=
  if separator.isEmpty ∨ packet.isEmpty then none
  else splitLoop packet separator packet [] [] 0 0

/-! ### Behaviour of `split` for single-byte separators -/

theorem splitLoop_single_some (s : Nat) (b : List Nat) :
    ∀ (h : List Nat), s ∉ h →
      ∀ (packet first : List Nat) (i : Nat), packet.drop i = h ++ s :: b →
        splitLoop packet [s] (h ++ s :: b) first [] 0 i = some (first ++ h, b) := by
  intro h
  induction h with
  | nil =>
    intro _ packet first i hdrop
    rw [List.nil_append] at hdrop
    rw [List.nil_append, splitLoop]
    have hget : [s].getD 0 0 = s := rfl
    rw [hget, if_pos rfl, if_pos (by simp)]
    have : packet.drop (i + 1) = b := by
      have h1 : packet.drop (i + 1) = (packet.drop i).drop 1 := by
        rw [List.drop_drop]
      rw [h1, hdrop]
      rfl
    rw [this, List.append_nil]
  | cons x h' ih =>
    intro hmem packet first i hdrop
    have hx : x ≠ s := fun hc => hmem (hc ▸ List.mem_cons_self _ _)
    have hm' : s ∉ h' := fun hc => hmem (List.mem_cons_of_mem _ hc)
    rw [List.cons_append, splitLoop]
    have hget : [s].getD 0 0 = s := rfl
    rw [hget, if_neg hx]
    have h00 : ¬ (0 : Nat) < 0 := by omega
    rw [if_neg h00, if_neg h00]
    have hdrop' : packet.drop (i + 1) = h' ++ s :: b := by
      have h1 : packet.drop (i + 1) = (packet.drop i).drop 1 := by
        rw [List.drop_drop]
      rw [h1, hdrop]
      rfl
    rw [ih hm' packet (first ++ [x]) (i + 1) hdrop']
    simp

theorem split_single_some {s : Nat} {h b : List Nat} (hmem : s ∉ h) :
    split (h ++ s :: b) [s] = some (h, b) := by
  unfold split
  rw [if_neg (by simp)]
  have := splitLoop_single_some s b h hmem (h ++ s :: b) [] 0 (by simp)
  rw [this, List.nil_append]

theorem splitLoop_single_none (s : Nat) :
    ∀ (rest : List Nat), (∀ x ∈ rest, x ≠ s) →
      ∀ (packet first : List Nat) (i : Nat),
        splitLoop packet [s] rest first [] 0 i = none := by
  intro rest
  induction rest with
  | nil => intro _ packet first i; rfl
  | cons x rest' ih =>
    intro hmem packet first i
    have hx : x ≠ s := hmem x (List.mem_cons_self _ _)
    rw [splitLoop]
    have hget : [s].getD 0 0 = s := rfl
    rw [hget, if_neg hx]
    have h00 : ¬ (0 : Nat) < 0 := by omega
    rw [if_neg h00, if_neg h00]
    exact ih (fun y hy => hmem y (List.mem_cons_of_mem _ hy)) packet (first ++ [x]) (i + 1)

theorem split_single_none {s : Nat} {l : List Nat} (hmem : s ∉ l) :
    split l [s] = none := by
  unfold split
  by_cases hl : l.isEmpty
  · rw [if_pos (Or.inr hl)]
  · rw [if_neg (by simp [hl])]
    exact splitLoop_single_none s l (fun x hx hc => hmem (hc ▸ hx)) l [] 0

/-! ### Whenever `split` succeeds, the three parts reassemble the buffer -/

theorem splitLoop_concat (packet separator : List Nat) :
    ∀ (rest first cache : List Nat) (sepIdx i : Nat) (pre suf : List Nat),
      packet.drop i = rest →
      packet.take i = first ++ cache →
      cache = separator.take sepIdx →
      sepIdx = cache.length →
      sepIdx < separator.length →
      splitLoop packet separator rest first cache sepIdx i = some (pre, suf) →
      pre ++ separator ++ suf = packet := by
  intro rest
  induction rest with
  | nil =>
    intro first cache sepIdx i pre suf _ _ _ _ _ hs
    exact absurd hs (by rw [splitLoop]; simp)
  | cons byte rest' ih =>
    intro first cache sepIdx i pre suf hdrop htake hcache hlen hlt hs
    have hbyte_take : packet.take (i + 1) = packet.take i ++ [byte] := by
      rw [List.take_add, hdrop]
      rfl
    have hdrop' : packet.drop (i + 1) = rest' := by
      have h1 : packet.drop (i + 1) = (packet.drop i).drop 1 := by
        rw [List.drop_drop]
      rw [h1, hdrop]
      rfl
    rw [splitLoop] at hs
    by_cases hmatch : byte = separator.getD sepIdx 0
    · rw [if_pos hmatch] at hs
      have hgetd : separator.getD sepIdx 0 = separator.get ⟨sepIdx, hlt⟩ := by
        rw [List.getD_eq_getElem?_getD, List.getElem?_eq_getElem hlt]
        rfl
      have hconcat : cache ++ [byte] = separator.take (sepIdx + 1) := by
        rw [hcache, hmatch, hgetd, List.get_eq_getElem, ← List.concat_eq_append]
        exact List.take_concat_get separator sepIdx hlt
      by_cases hdone : separator.length ≤ sepIdx + 1
      · rw [if_pos hdone] at hs
        have hsep_eq : separator.take (sepIdx + 1) = separator :=
          List.take_of_length_le hdone
        obtain ⟨hpre, hsuf⟩ : pre = first ∧ suf = packet.drop (i + 1) := by
          cases hs; exact ⟨rfl, rfl⟩
        rw [hpre, hsuf]
        calc first ++ separator ++ packet.drop (i + 1)
            = first ++ (cache ++ [byte]) ++ packet.drop (i + 1) := by
              rw [hconcat, hsep_eq]
          _ = (first ++ cache) ++ [byte] ++ packet.drop (i + 1) := by
              simp [List.append_assoc]
          _ = packet.take (i + 1) ++ packet.drop (i + 1) := by
              rw [hbyte_take, htake]
          _ = packet := List.take_append_drop _ _
      · rw [if_neg hdone] at hs
        exact ih first (cache ++ [byte]) (sepIdx + 1) (i + 1) pre suf hdrop'
          (by rw [hbyte_take, htake, List.append_assoc]) hconcat
          (by simp [← hlen]) (by omega) hs
    · rw [if_neg hmatch] at hs
      by_cases hidx : 0 < sepIdx
      · rw [if_pos hidx, if_pos hidx] at hs
        exact ih (first ++ cache ++ [byte]) [] 0 (i + 1) pre suf hdrop'
          (by rw [hbyte_take, htake]; simp [List.append_assoc]) rfl rfl
          (by omega) hs
      · rw [if_neg hidx, if_neg hidx] at hs
        have hc0 : cache = [] := by
          have : sepIdx = 0 := by omega
          rw [hcache, this]
          rfl
        exact ih (first ++ [byte]) cache 0 (i + 1) pre suf hdrop'
          (by rw [hbyte_take, htake, hc0]; simp) (by rw [hc0]; rfl)
          (by rw [hc0]; rfl) (by omega) hs

theorem split_concat {buf sep pre suf : List Nat}
    (hs : split buf sep = some (pre, suf)) : pre ++ sep ++ suf = buf := by
  unfold split at hs
  by_cases hc : sep.isEmpty ∨ buf.isEmpty
  · rw [if_pos hc] at hs
    exact absurd hs (by simp)
  · rw [if_neg hc] at hs
    have hse : ¬ sep.isEmpty := fun h => hc (Or.inl h)
    have hlen : 0 < sep.length := by
      cases sep with
      | nil => exact absurd rfl hse
      | cons a l => simp
    exact splitLoop_concat buf sep buf [] [] 0 0 pre suf rfl (by simp) rfl rfl hlen hs

theorem split_none_of_no_occurrence {buf sep : List Nat}
    (h : ¬ ∃ pre suf, buf = pre ++ sep ++ suf) : split buf sep = none := by
  cases hs : split buf sep with
  | none => rfl
  | some p =>
    obtain ⟨pre, suf⟩ := p
    exact absurd ⟨pre, suf, (split_concat hs).symm⟩ h

/-! ## Decimal rendering (`u16::to_string`) and parsing (`str::parse::<u16>`) -/

/-- Little-endian decimal digits of `n`; the fuel only drives structural
recursion (`n / 10 < n`) and any fuel `≥ n` gives the same result. -/
def decDigitsFuel : Nat → Nat → List Nat
  | _, 0 => []
  | 0, _ + 1 => []
  | fuel + 1, n + 1 => ((n + 1) % 10) :: decDigitsFuel fuel ((n + 1) / 10)

/-- ASCII bytes of the decimal representation, as produced by `to_string`. -/
def decimalStr (n : Nat) : List Nat :=
  if n = 0 then [48] else (decDigitsFuel n n).reverse.map (· + 48)

/-- Value of a little-endian digit list. -/
def decValLE : List Nat → Nat
  | [] => 0
  | d :: ds => d + 10 * decValLE ds

/-- Value accumulated left to right over a most-significant-first digit list. -/
def decValFrom (acc : Nat) : List Nat → Nat
  | [] => acc
  | d :: ds => decValFrom (acc * 10 + d) ds

/-- Accumulating digit loop of `str::parse::<u16>`: each byte must be an
ASCII digit and every intermediate value must fit in `u16`. -/
def parseU16go : List Nat → Nat → Option Nat
  | [], acc => some acc
  | c :: rest, acc =>
    if 48 ≤ c ∧ c ≤ 57 then
      if acc * 10 + (c - 48) ≤ 65535 then parseU16go rest (acc * 10 + (c - 48))
      else none
    else none

/-- `str::parse::<u16>`: optional leading `+`, then one or more digits, with
overflow checking.  A lone `+` or an empty string fails. -/
def parseU16 (s : List Nat) : Option Nat :=
  match s with
  | [] => none
  | c :: rest =>
    if c = 43 then (if rest = [] then none else parseU16go rest 0)
    else parseU16go (c :: rest) 0

theorem decDigitsFuel_val :
    ∀ (fuel n : Nat), n ≤ fuel → decValLE (decDigitsFuel fuel n) = n := by
  intro fuel
  induction fuel with
  | zero =>
    intro n hn
    interval_cases n
    rfl
  | succ fuel ih =>
    intro n hn
    cases n with
    | zero => rfl
    | succ m =>
      rw [decDigitsFuel, decValLE]
      have hdiv : (m + 1) / 10 ≤ fuel := by
        have := Nat.div_lt_self (Nat.succ_pos m) (by omega : 1 < 10)
        omega
      rw [ih _ hdiv]
      omega

theorem decDigitsFuel_lt_ten :
    ∀ (fuel n : Nat), ∀ d ∈ decDigitsFuel fuel n, d < 10 := by
  intro fuel
  induction fuel with
  | zero =>
    intro n d hd
    cases n with
    | zero => cases hd
    | succ m => cases hd
  | succ fuel ih =>
    intro n d hd
    cases n with
    | zero => cases hd
    | succ m =>
      rw [decDigitsFuel] at hd
      rcases List.mem_cons.mp hd with h | h
      · rw [h]; exact Nat.mod_lt _ (by omega)
      · exact ih _ _ h

theorem decimalStr_digits {n : Nat} : ∀ c ∈ decimalStr n, 48 ≤ c ∧ c ≤ 57 := by
  intro c hc
  unfold decimalStr at hc
  by_cases h0 : n = 0
  · rw [if_pos h0] at hc
    rcases List.mem_singleton.mp hc with rfl
    omega
  · rw [if_neg h0] at hc
    obtain ⟨d, hd, rfl⟩ := List.mem_map.mp hc
    have := decDigitsFuel_lt_ten n n d (List.mem_reverse.mp hd)
    omega

theorem decValFrom_append_single (d : Nat) :
    ∀ (xs : List Nat) (acc : Nat),
      decValFrom acc (xs ++ [d]) = (decValFrom acc xs) * 10 + d := by
  intro xs
  induction xs with
  | nil => intro acc; rfl
  | cons x xs ih => intro acc; rw [List.cons_append, decValFrom, decValFrom, ih]

theorem decValFrom_reverse :
    ∀ (L : List Nat) (acc : Nat),
      decValFrom acc L.reverse = acc * 10 ^ L.length + decValLE L := by
  intro L
  induction L with
  | nil => intro acc; simp [decValFrom, decValLE]
  | cons d L ih =>
    intro acc
    rw [List.reverse_cons, decValFrom_append_single, ih, decValLE, List.length_cons]
    ring

theorem decValFrom_le :
    ∀ (ds : List Nat) (acc : Nat), acc ≤ decValFrom acc ds := by
  intro ds
  induction ds with
  | nil => intro acc; exact Nat.le_refl _
  | cons d t ih =>
    intro acc
    rw [decValFrom]
    calc acc ≤ acc * 10 + d := by omega
      _ ≤ decValFrom (acc * 10 + d) t := ih _

theorem parseU16go_digits :
    ∀ (ds : List Nat) (acc : Nat), (∀ d ∈ ds, d < 10) →
      decValFrom acc ds ≤ 65535 →
      parseU16go (ds.map (· + 48)) acc = some (decValFrom acc ds) := by
  intro ds
  induction ds with
  | nil => intro acc _ _; rfl
  | cons d t ih =>
    intro acc hd hle
    have hd10 : d < 10 := hd d (List.mem_cons_self _ _)
    rw [List.map_cons, parseU16go, if_pos (by omega : 48 ≤ d + 48 ∧ d + 48 ≤ 57)]
    have hsub : d + 48 - 48 = d := by omega
    rw [hsub]
    have hstep : decValFrom acc (d :: t) = decValFrom (acc * 10 + d) t := rfl
    have hmid : acc * 10 + d ≤ 65535 := by
      have := decValFrom_le t (acc * 10 + d)
      rw [hstep] at hle
      omega
    rw [if_pos hmid, ih _ (fun x hx => hd x (List.mem_cons_of_mem _ hx)) (hstep ▸ hle)]
    rw [hstep]

theorem parseU16_decimalStr {n : Nat} (h : n ≤ 65535) :
    parseU16 (decimalStr n) = some n := by
  by_cases h0 : n = 0
  · subst h0; rfl
  · unfold decimalStr
    rw [if_neg h0]
    have hval : decValFrom 0 (decDigitsFuel n n).reverse = n := by
      rw [decValFrom_reverse, decDigitsFuel_val n n (Nat.le_refl _)]
      omega
    have hforall : ∀ d ∈ (decDigitsFuel n n).reverse, d < 10 :=
      fun d hd => decDigitsFuel_lt_ten n n d (List.mem_reverse.mp hd)
    cases hrev : (decDigitsFuel n n).reverse with
    | nil =>
      exfalso
      rw [hrev] at hval
      exact h0 (by simpa [decValFrom] using hval.symm)
    | cons d t =>
      rw [List.map_cons, parseU16]
      have hd10 : d < 10 := by
        have := hforall d
        rw [hrev] at this
        exact this (List.mem_cons_self _ _)
      rw [if_neg (by omega : ¬ d + 48 = 43)]
      have hfold : (d + 48) :: List.map (fun x => x + 48) t =
          List.map (fun x => x + 48) (d :: t) := rfl
      rw [hfold, ← hrev]
      rw [parseU16go_digits _ 0 hforall (by rw [hval]; exact h), hval]

/-! ## Comma joining (`Vec::join(",")`) and splitting (`str::split(",")`) -/

def joinComma : List (List Nat) → List Nat
  | [] => []
  | [x] => x
  | x :: y :: ys => x ++ 44 :: joinComma (y :: ys)

/-- `str::split(",")` on bytes: maximal comma-free pieces; the empty string
yields one empty piece. -/
def splitOnComma : List Nat → List (List Nat)
  | [] => [[]]
  | c :: rest =>
    if c = 44 then [] :: splitOnComma rest
    else
      match splitOnComma rest with
      | [] => [[c]]
      | p :: ps => (c :: p) :: ps

theorem splitOnComma_no_comma {x : List Nat} (hx : 44 ∉ x) :
    splitOnComma x = [x] := by
  induction x with
  | nil => rfl
  | cons c t ih =>
    have hc44 : ¬ c = 44 := by
      intro hc
      exact hx (hc ▸ List.mem_cons_self c t)
    rw [splitOnComma, if_neg hc44]
    rw [ih (fun hc => hx (List.mem_cons_of_mem _ hc))]

theorem splitOnComma_append {x : List Nat} (hx : 44 ∉ x) (r : List Nat) :
    splitOnComma (x ++ 44 :: r) = x :: splitOnComma r := by
  induction x with
  | nil => rw [List.nil_append, splitOnComma, if_pos rfl]
  | cons c t ih =>
    have hc44 : ¬ c = 44 := by
      intro hc
      exact hx (hc ▸ List.mem_cons_self c t)
    rw [List.cons_append, splitOnComma, if_neg hc44]
    rw [ih (fun hc => hx (List.mem_cons_of_mem _ hc))]

theorem splitOnComma_joinComma :
    ∀ (ps : List (List Nat)), ps ≠ [] → (∀ p ∈ ps, 44 ∉ p) →
      splitOnComma (joinComma ps) = ps := by
  intro ps
  induction ps with
  | nil => intro h _; exact absurd rfl h
  | cons x ys ih =>
    intro _ hmem
    cases ys with
    | nil => exact splitOnComma_no_comma (hmem x (List.mem_cons_self _ _))
    | cons y ys' =>
      rw [joinComma, splitOnComma_append (hmem x (List.mem_cons_self _ _))]
      rw [ih (by simp) (fun p hp => hmem p (List.mem_cons_of_mem _ hp))]

/-! ## Hex rendering and the UUID model

`uuid::Uuid` is modelled as the list of its 32 hexadecimal digit values
(each `< 16`).  `uuidStr` models `Uuid::to_string` (canonical lowercase
hyphenated form 8-4-4-4-12).  `uuidParse` models the hyphenated branch of
`Uuid::parse_str` / `Uuid::try_parse_ascii`: dashes at positions 8, 13, 18,
23 and hex digits (either case) elsewhere; the crate's other accepted
syntaxes (simple, braced, URN) are not exercised by any claim. -/

def hexChar (d : Nat) : Nat := if d < 10 then 48 + d else 87 + d

def hexVal (c : Nat) : Option Nat :=
  if 48 ≤ c ∧ c ≤ 57 then some (c - 48)
  else if 97 ≤ c ∧ c ≤ 102 then some (c - 87)
  else if 65 ≤ c ∧ c ≤ 70 then some (c - 55)
  else none

abbrev Uuid : Type := List Nat

def validUuid (u : Uuid) : Prop :=
  List.length u = 32 ∧ ∀ d ∈ u, d < 16

instance (u : Uuid) : Decidable (validUuid u) := by unfold validUuid; infer_instance

def uuidStr (u : Uuid) : List Nat :=
  (List.take 8 u).map hexChar ++
    (45 :: (((List.drop 8 u).take 4).map hexChar ++
      (45 :: (((List.drop 12 u).take 4).map hexChar ++
        (45 :: (((List.drop 16 u).take 4).map hexChar ++
          (45 :: (List.drop 20 u).map hexChar)))))))

def expectDash : List Nat → Option (List Nat)
  | [] => none
  | c :: r => if c = 45 then some r else none

def uuidParse (s : List Nat) : Option Uuid :=
  (expectDash (s.drop 8)).bind fun r1 =>
    (expectDash (r1.drop 4)).bind fun r2 =>
      (expectDash (r2.drop 4)).bind fun r3 =>
        (expectDash (r3.drop 4)).bind fun r4 =>
          if (s.take 8).length = 8 ∧ (r1.take 4).length = 4 ∧
              (r2.take 4).length = 4 ∧ (r3.take 4).length = 4 ∧ r4.length = 12 then
            List.mapM hexVal (s.take 8 ++ r1.take 4 ++ r2.take 4 ++ r3.take 4 ++ r4)
          else none

theorem hexChar_ge_48 (d : Nat) : 48 ≤ hexChar d := by
  unfold hexChar
  by_cases h : d < 10
  · rw [if_pos h]; omega
  · rw [if_neg h]; omega

theorem hexChar_le_102 {d : Nat} (h : d < 16) : hexChar d ≤ 102 := by
  unfold hexChar
  by_cases h10 : d < 10
  · rw [if_pos h10]; omega
  · rw [if_neg h10]; omega

theorem hexVal_hexChar : ∀ d, d < 16 → hexVal (hexChar d) = some d := by decide

theorem mapM_hexVal_hexChar :
    ∀ (l : List Nat), (∀ d ∈ l, d < 16) →
      List.mapM hexVal (l.map hexChar) = some l := by
  intro l
  induction l with
  | nil => intro _; rfl
  | cons d t ih =>
    intro h
    rw [List.map_cons, List.mapM_cons,
      hexVal_hexChar d (h d (List.mem_cons_self _ _)),
      ih (fun x hx => h x (List.mem_cons_of_mem _ hx))]
    rfl

theorem mem_uuidStr {u : Uuid} {c : Nat} (hc : c ∈ uuidStr u) :
    c = 45 ∨ ∃ d ∈ u, c = hexChar d := by
  have hmap : ∀ (l : List Nat), c ∈ l.map hexChar → (∀ x ∈ l, x ∈ u) →
      ∃ d ∈ u, c = hexChar d := by
    intro l hl hsub
    obtain ⟨d, hd, hdc⟩ := List.mem_map.mp hl
    exact ⟨d, hsub d hd, hdc.symm⟩
  unfold uuidStr at hc
  rcases List.mem_append.mp hc with h1 | h1
  · exact Or.inr (hmap _ h1 (fun x hx => List.mem_of_mem_take hx))
  · rcases List.mem_cons.mp h1 with rfl | h2
    · exact Or.inl rfl
    · rcases List.mem_append.mp h2 with h3 | h3
      · exact Or.inr (hmap _ h3
          (fun x hx => List.mem_of_mem_drop (List.mem_of_mem_take hx)))
      · rcases List.mem_cons.mp h3 with rfl | h4
        · exact Or.inl rfl
        · rcases List.mem_append.mp h4 with h5 | h5
          · exact Or.inr (hmap _ h5
              (fun x hx => List.mem_of_mem_drop (List.mem_of_mem_take hx)))
          · rcases List.mem_cons.mp h5 with rfl | h6
            · exact Or.inl rfl
            · rcases List.mem_append.mp h6 with h7 | h7
              · exact Or.inr (hmap _ h7
                  (fun x hx => List.mem_of_mem_drop (List.mem_of_mem_take hx)))
              · rcases List.mem_cons.mp h7 with rfl | h8
                · exact Or.inl rfl
                · exact Or.inr (hmap _ h8 (fun x hx => List.mem_of_mem_drop hx))

theorem uuidStr_ge_45 {u : Uuid} {c : Nat} (hc : c ∈ uuidStr u) : 45 ≤ c := by
  rcases mem_uuidStr hc with rfl | ⟨d, _, rfl⟩
  · exact Nat.le_refl _
  · have := hexChar_ge_48 d
    omega

theorem uuidStr_ascii {u : Uuid} (hu : validUuid u) {c : Nat}
    (hc : c ∈ uuidStr u) : c ≤ 0x7F := by
  rcases mem_uuidStr hc with rfl | ⟨d, hd, rfl⟩
  · omega
  · have := hexChar_le_102 (hu.2 d hd)
    omega

theorem uuidParse_uuidStr {u : Uuid} (hu : validUuid u) :
    uuidParse (uuidStr u) = some u := by
  obtain ⟨hlen, hdig⟩ := hu
  have hlA : ((List.take 8 u).map hexChar).length = 8 := by
    rw [List.length_map, List.length_take]
    omega
  have hlB : (((List.drop 8 u).take 4).map hexChar).length = 4 := by
    rw [List.length_map, List.length_take, List.length_drop]
    omega
  have hlC : (((List.drop 12 u).take 4).map hexChar).length = 4 := by
    rw [List.length_map, List.length_take, List.length_drop]
    omega
  have hlD : (((List.drop 16 u).take 4).map hexChar).length = 4 := by
    rw [List.length_map, List.length_take, List.length_drop]
    omega
  have hlE : ((List.drop 20 u).map hexChar).length = 12 := by
    rw [List.length_map, List.length_drop]
    omega
  have hdash : ∀ r : List Nat, expectDash (45 :: r) = some r := fun r => rfl
  unfold uuidParse uuidStr
  rw [List.drop_left' hlA, hdash, Option.some_bind]
  rw [List.drop_left' hlB, hdash, Option.some_bind]
  rw [List.drop_left' hlC, hdash, Option.some_bind]
  rw [List.drop_left' hlD, hdash, Option.some_bind]
  simp only [List.take_left' hlA, List.take_left' hlB, List.take_left' hlC,
    List.take_left' hlD, hlA, hlB, hlC, hlD, hlE]
  rw [if_pos ⟨trivial, trivial, trivial, trivial, trivial⟩]
  have hdecomp : List.take 8 u ++ ((List.drop 8 u).take 4 ++
      ((List.drop 12 u).take 4 ++ ((List.drop 16 u).take 4 ++ List.drop 20 u))) = u := by
    have h3 : (List.drop 16 u).drop 4 = List.drop 20 u := by rw [List.drop_drop]
    have h2 : (List.drop 12 u).drop 4 = List.drop 16 u := by rw [List.drop_drop]
    have h1 : (List.drop 8 u).drop 4 = List.drop 12 u := by rw [List.drop_drop]
    rw [← h3, List.take_append_drop, ← h2, List.take_append_drop, ← h1,
      List.take_append_drop, List.take_append_drop]
  have hmap : (List.take 8 u).map hexChar ++ ((List.drop 8 u).take 4).map hexChar ++
      ((List.drop 12 u).take 4).map hexChar ++ ((List.drop 16 u).take 4).map hexChar ++
      (List.drop 20 u).map hexChar = u.map hexChar := by
    rw [← List.map_append, ← List.map_append, ← List.map_append, ← List.map_append]
    rw [show List.take 8 u ++ (List.drop 8 u).take 4 ++ (List.drop 12 u).take 4 ++
        (List.drop 16 u).take 4 ++ List.drop 20 u =
        List.take 8 u ++ ((List.drop 8 u).take 4 ++ ((List.drop 12 u).take 4 ++
        ((List.drop 16 u).take 4 ++ List.drop 20 u))) from by
      simp [List.append_assoc]]
    rw [hdecomp]
  rw [hmap, mapM_hexVal_hexChar u hdig]

/-! ## SHA-1 and SHA-512

`hash_sha1` / `hash_sha512` (`src/utils.rs:298`/`305`, identical in
`src/functions.rs:189`/`196`) call the `sha1` / `sha2` crates and format the
digest as lowercase hex, two characters per byte (`format!("{:x}", …)`).
The digests are implemented here in full (FIPS 180-4); words are `Nat`
reduced modulo `2^32` / `2^64` where the algorithms wrap. -/

def rotl32 (x k : Nat) : Nat := ((x <<< k) % 2 ^ 32) ||| (x >>> (32 - k))

def rotr64 (x k : Nat) : Nat := (x >>> k) ||| ((x <<< (64 - k)) % 2 ^ 64)

def word32OfBytes (a b c d : Nat) : Nat :=
  ((a % 256) <<< 24) ||| ((b % 256) <<< 16) ||| ((c % 256) <<< 8) ||| (d % 256)

def toWords32 : List Nat → List Nat
  | a :: b :: c :: d :: rest => word32OfBytes a b c d :: toWords32 rest
  | _ => []

def word64OfBytes (a b c d e f g h : Nat) : Nat :=
  ((a % 256) <<< 56) ||| ((b % 256) <<< 48) ||| ((c % 256) <<< 40) |||
    ((d % 256) <<< 32) ||| ((e % 256) <<< 24) ||| ((f % 256) <<< 16) |||
    ((g % 256) <<< 8) ||| (h % 256)

def toWords64 : List Nat → List Nat
  | a :: b :: c :: d :: e :: f :: g :: h :: rest =>
    word64OfBytes a b c d e f g h :: toWords64 rest
  | _ => []

def word32Bytes (x : Nat) : List Nat :=
  [(x >>> 24) % 256, (x >>> 16) % 256, (x >>> 8) % 256, x % 256]

def word64Bytes (x : Nat) : List Nat :=
  [(x >>> 56) % 256, (x >>> 48) % 256, (x >>> 40) % 256, (x >>> 32) % 256,
    (x >>> 24) % 256, (x >>> 16) % 256, (x >>> 8) % 256, x % 256]

/-- Split into blocks of `size` bytes; the fuel (any value `≥` the list
length, with `size > 0`) only drives structural recursion. -/
def chunksFuel (size : Nat) : Nat → List Nat → List (List Nat)
  | _, [] => []
  | 0, _ :: _ => []
  | fuel + 1, x :: xs =>
    (x :: xs).take size :: chunksFuel size fuel ((x :: xs).drop size)

/-- Merkle–Damgård padding: `0x80`, zeros to `≡ size - lenBytes (mod size)`,
then the big-endian bit length in `lenBytes` bytes. -/
def shaPad (size lenBytes : Nat) (lenField : Nat → List Nat) (msg : List Nat) :
    List Nat :=
  let z := (size - 1 - lenBytes + size - msg.length % size) % size
  msg ++ 128 :: List.replicate z 0 ++ lenField (msg.length * 8)

def len64Field (bitLen : Nat) : List Nat :=
  [(bitLen >>> 56) % 256, (bitLen >>> 48) % 256, (bitLen >>> 40) % 256,
    (bitLen >>> 32) % 256, (bitLen >>> 24) % 256, (bitLen >>> 16) % 256,
    (bitLen >>> 8) % 256, bitLen % 256]

def len128Field (bitLen : Nat) : List Nat :=
  [(bitLen >>> 120) % 256, (bitLen >>> 112) % 256, (bitLen >>> 104) % 256,
    (bitLen >>> 96) % 256, (bitLen >>> 88) % 256, (bitLen >>> 80) % 256,
    (bitLen >>> 72) % 256, (bitLen >>> 64) % 256] ++ len64Field bitLen

/-! ### SHA-1 core -/

def sha1ExtendLoop : Nat → List Nat → List Nat
  | 0, w => w
  | k + 1, w =>
    sha1ExtendLoop k (w ++ [rotl32 (w.getD (w.length - 3) 0 ^^^
      w.getD (w.length - 8) 0 ^^^ w.getD (w.length - 14) 0 ^^^
      w.getD (w.length - 16) 0) 1])

def sha1F (t b c d : Nat) : Nat :=
  if t < 20 then (b &&& c) ||| ((b ^^^ 0xFFFFFFFF) &&& d)
  else if t < 40 then b ^^^ c ^^^ d
  else if t < 60 then (b &&& c) ||| (b &&& d) ||| (c &&& d)
  else b ^^^ c ^^^ d

def sha1K (t : Nat) : Nat :=
  if t < 20 then 0x5A827999
  else if t < 40 then 0x6ED9EBA1
  else if t < 60 then 0x8F1BBCDC
  else 0xCA62C1D6

def sha1Round (w : List Nat) (t : Nat) :
    Nat × Nat × Nat × Nat × Nat → Nat × Nat × Nat × Nat × Nat
  | (a, b, c, d, e) =>
    ((rotl32 a 5 + sha1F t b c d + e + sha1K t + w.getD t 0) % 2 ^ 32,
      a, rotl32 b 30, c, d)

def sha1RoundsLoop (w : List Nat) :
    Nat → Nat × Nat × Nat × Nat × Nat → Nat × Nat × Nat × Nat × Nat
  | 0, st => st
  | k + 1, st => sha1RoundsLoop w k (sha1Round w (80 - (k + 1)) st)

def sha1Compress (h : Nat × Nat × Nat × Nat × Nat) (chunk : List Nat) :
    Nat × Nat × Nat × Nat × Nat :=
  let w := sha1ExtendLoop 64 (toWords32 chunk)
  let (a, b, c, d, e) := sha1RoundsLoop w 80 h
  let (h0, h1, h2, h3, h4) := h
  ((h0 + a) % 2 ^ 32, (h1 + b) % 2 ^ 32, (h2 + c) % 2 ^ 32,
    (h3 + d) % 2 ^ 32, (h4 + e) % 2 ^ 32)

/-- The 20 digest bytes of SHA-1. -/
def sha1Digest (msg : List Nat) : List Nat :=
  let padded := shaPad 64 8 len64Field msg
  let st := (chunksFuel 64 padded.length padded).foldl sha1Compress
    (0x67452301, 0xEFCDAB89, 0x98BADCFE, 0x10325476, 0xC3D2E1F0)
  word32Bytes st.1 ++ word32Bytes st.2.1 ++ word32Bytes st.2.2.1 ++
    word32Bytes st.2.2.2.1 ++ word32Bytes st.2.2.2.2

/-! ### SHA-512 core -/

def sha512K : List Nat :=
  [0x428A2F98D728AE22, 0x7137449123EF65CD, 0xB5C0FBCFEC4D3B2F, 0xE9B5DBA58189DBBC,
   0x3956C25BF348B538, 0x59F111F1B605D019, 0x923F82A4AF194F9B, 0xAB1C5ED5DA6D8118,
   0xD807AA98A3030242, 0x12835B0145706FBE, 0x243185BE4EE4B28C, 0x550C7DC3D5FFB4E2,
   0x72BE5D74F27B896F, 0x80DEB1FE3B1696B1, 0x9BDC06A725C71235, 0xC19BF174CF692694,
   0xE49B69C19EF14AD2, 0xEFBE4786384F25E3, 0x0FC19DC68B8CD5B5, 0x240CA1CC77AC9C65,
   0x2DE92C6F592B0275, 0x4A7484AA6EA6E483, 0x5CB0A9DCBD41FBD4, 0x76F988DA831153B5,
   0x983E5152EE66DFAB, 0xA831C66D2DB43210, 0xB00327C898FB213F, 0xBF597FC7BEEF0EE4,
   0xC6E00BF33DA88FC2, 0xD5A79147930AA725, 0x06CA6351E003826F, 0x142929670A0E6E70,
   0x27B70A8546D22FFC, 0x2E1B21385C26C926, 0x4D2C6DFC5AC42AED, 0x53380D139D95B3DF,
   0x650A73548BAF63DE, 0x766A0ABB3C77B2A8, 0x81C2C92E47EDAEE6, 0x92722C851482353B,
   0xA2BFE8A14CF10364, 0xA81A664BBC423001, 0xC24B8B70D0F89791, 0xC76C51A30654BE30,
   0xD192E819D6EF5218, 0xD69906245565A910, 0xF40E35855771202A, 0x106AA07032BBD1B8,
   0x19A4C116B8D2D0C8, 0x1E376C085141AB53, 0x2748774CDF8EEB99, 0x34B0BCB5E19B48A8,
   0x391C0CB3C5C95A63, 0x4ED8AA4AE3418ACB, 0x5B9CCA4F7763E373, 0x682E6FF3D6B2B8A3,
   0x748F82EE5DEFB2FC, 0x78A5636F43172F60, 0x84C87814A1F0AB72, 0x8CC702081A6439EC,
   0x90BEFFFA23631E28, 0xA4506CEBDE82BDE9, 0xBEF9A3F7B2C67915, 0xC67178F2E372532B,
   0xCA273ECEEA26619C, 0xD186B8C721C0C207, 0xEADA7DD6CDE0EB1E, 0xF57D4F7FEE6ED178,
   0x06F067AA72176FBA, 0x0A637DC5A2C898A6, 0x113F9804BEF90DAE, 0x1B710B35131C471B,
   0x28DB77F523047D84, 0x32CAAB7B40C72493, 0x3C9EBE0A15C9BEBC, 0x431D67C49C100D4C,
   0x4CC5D4BECB3E42B6, 0x597F299CFC657E2A, 0x5FCB6FAB3AD6FAEC, 0x6C44198C4A475817]

def sha512s0 (x : Nat) : Nat := rotr64 x 1 ^^^ rotr64 x 8 ^^^ (x >>> 7)

def sha512s1 (x : Nat) : Nat := rotr64 x 19 ^^^ rotr64 x 61 ^^^ (x >>> 6)

def sha512S0 (x : Nat) : Nat := rotr64 x 28 ^^^ rotr64 x 34 ^^^ rotr64 x 39

def sha512S1 (x : Nat) : Nat := rotr64 x 14 ^^^ rotr64 x 18 ^^^ rotr64 x 41

def sha512ExtendLoop : Nat → List Nat → List Nat
  | 0, w => w
  | k + 1, w =>
    sha512ExtendLoop k (w ++ [(sha512s1 (w.getD (w.length - 2) 0) +
      w.getD (w.length - 7) 0 + sha512s0 (w.getD (w.length - 15) 0) +
      w.getD (w.length - 16) 0) % 2 ^ 64])

structure Sha512State where
  a : Nat
  b : Nat
  c : Nat
  d : Nat
  e : Nat
  f : Nat
  g : Nat
  h : Nat

def sha512Round (w : List Nat) (t : Nat) (st : Sha512State) : Sha512State :=
  let ch := (st.e &&& st.f) ^^^ ((st.e ^^^ 0xFFFFFFFFFFFFFFFF) &&& st.g)
  let maj := (st.a &&& st.b) ^^^ (st.a &&& st.c) ^^^ (st.b &&& st.c)
  let t1 := (st.h + sha512S1 st.e + ch + sha512K.getD t 0 + w.getD t 0) % 2 ^ 64
  let t2 := (sha512S0 st.a + maj) % 2 ^ 64
  ⟨(t1 + t2) % 2 ^ 64, st.a, st.b, st.c, (st.d + t1) % 2 ^ 64, st.e, st.f, st.g⟩

def sha512RoundsLoop (w : List Nat) : Nat → Sha512State → Sha512State
  | 0, st => st
  | k + 1, st => sha512RoundsLoop w k (sha512Round w (80 - (k + 1)) st)

def sha512Compress (st : Sha512State) (chunk : List Nat) : Sha512State :=
  let w := sha512ExtendLoop 64 (toWords64 chunk)
  let r := sha512RoundsLoop w 80 st
  ⟨(st.a + r.a) % 2 ^ 64, (st.b + r.b) % 2 ^ 64, (st.c + r.c) % 2 ^ 64,
    (st.d + r.d) % 2 ^ 64, (st.e + r.e) % 2 ^ 64, (st.f + r.f) % 2 ^ 64,
    (st.g + r.g) % 2 ^ 64, (st.h + r.h) % 2 ^ 64⟩

/-- The 64 digest bytes of SHA-512. -/
def sha512Digest (msg : List Nat) : List Nat :=
  let padded := shaPad 128 16 len128Field msg
  let st := (chunksFuel 128 padded.length padded).foldl sha512Compress
    ⟨0x6A09E667F3BCC908, 0xBB67AE8584CAA73B, 0x3C6EF372FE94F82B, 0xA54FF53A5F1D36F1,
      0x510E527FADE682D1, 0x9B05688C2B3E6C1F, 0x1F83D9ABFB41BD6B, 0x5BE0CD19137E2179⟩
  word64Bytes st.a ++ word64Bytes st.b ++ word64Bytes st.c ++ word64Bytes st.d ++
    word64Bytes st.e ++ word64Bytes st.f ++ word64Bytes st.g ++ word64Bytes st.h

/-! ### Lowercase hex formatting of a digest (`format!("{:x}", …)`) -/

def hexByte (b : Nat) : List Nat := [hexChar (b / 16), hexChar (b % 16)]

def hexBytes (l : List Nat) : List Nat := (l.map hexByte).flatten

/-- `hash_sha1` (`src/utils.rs:298`, `src/functions.rs:189`): lowercase hex
of the SHA-1 digest, as bytes. -/
def hash_sha1 (data : List Nat) : List Nat := hexBytes (sha1Digest data)

/-- `hash_sha512` (`src/utils.rs:305`, `src/functions.rs:196`): lowercase hex
of the SHA-512 digest, as bytes. -/
def hash_sha512 (data : List Nat) : List Nat := hexBytes (sha512Digest data)

theorem mem_word32Bytes_lt {x b : Nat} (h : b ∈ word32Bytes x) : b < 256 := by
  unfold word32Bytes at h
  simp only [List.mem_cons, List.not_mem_nil, or_false] at h
  rcases h with rfl | rfl | rfl | rfl <;> exact Nat.mod_lt _ (by omega)

theorem mem_word64Bytes_lt {x b : Nat} (h : b ∈ word64Bytes x) : b < 256 := by
  unfold word64Bytes at h
  simp only [List.mem_cons, List.not_mem_nil, or_false] at h
  rcases h with rfl | rfl | rfl | rfl | rfl | rfl | rfl | rfl <;>
    exact Nat.mod_lt _ (by omega)

theorem mem_sha1Digest_lt {msg : List Nat} {b : Nat} (h : b ∈ sha1Digest msg) :
    b < 256 := by
  unfold sha1Digest at h
  simp only [List.mem_append] at h
  rcases h with ((((h | h) | h) | h) | h) <;> exact mem_word32Bytes_lt h

theorem mem_sha512Digest_lt {msg : List Nat} {b : Nat} (h : b ∈ sha512Digest msg) :
    b < 256 := by
  unfold sha512Digest at h
  simp only [List.mem_append] at h
  rcases h with (((((((h | h) | h) | h) | h) | h) | h) | h) <;>
    exact mem_word64Bytes_lt h

theorem mem_hexBytes {l : List Nat} {c : Nat} (hc : c ∈ hexBytes l) :
    ∃ b ∈ l, c = hexChar (b / 16) ∨ c = hexChar (b % 16) := by
  unfold hexBytes at hc
  obtain ⟨piece, hp, hcp⟩ := List.mem_flatten.mp hc
  obtain ⟨b, hb, rfl⟩ := List.mem_map.mp hp
  unfold hexByte at hcp
  simp only [List.mem_cons, List.not_mem_nil, or_false] at hcp
  rcases hcp with h | h
  · exact ⟨b, hb, Or.inl h⟩
  · exact ⟨b, hb, Or.inr h⟩

theorem hexBytes_ge_48 {l : List Nat} {c : Nat} (hc : c ∈ hexBytes l) : 48 ≤ c := by
  obtain ⟨b, _, h | h⟩ := mem_hexBytes hc <;> rw [h] <;> exact hexChar_ge_48 _

theorem hexBytes_ascii {l : List Nat} (hl : ∀ b ∈ l, b < 256) {c : Nat}
    (hc : c ∈ hexBytes l) : c ≤ 0x7F := by
  obtain ⟨b, hb, h | h⟩ := mem_hexBytes hc
  · have : b / 16 < 16 := by
      have := hl b hb
      omega
    rw [h]
    have := hexChar_le_102 this
    omega
  · have h16 : b % 16 < 16 := Nat.mod_lt _ (by omega)
    rw [h]
    have := hexChar_le_102 h16
    omega

theorem hash_sha1_ge_48 {data : List Nat} {c : Nat} (hc : c ∈ hash_sha1 data) :
    48 ≤ c := hexBytes_ge_48 hc

theorem hash_sha512_ge_48 {data : List Nat} {c : Nat} (hc : c ∈ hash_sha512 data) :
    48 ≤ c := hexBytes_ge_48 hc

theorem hash_sha1_ascii {data : List Nat} {c : Nat} (hc : c ∈ hash_sha1 data) :
    c ≤ 0x7F := hexBytes_ascii (fun _ hb => mem_sha1Digest_lt hb) hc

theorem hash_sha512_ascii {data : List Nat} {c : Nat} (hc : c ∈ hash_sha512 data) :
    c ≤ 0x7F := hexBytes_ascii (fun _ hb => mem_sha512Digest_lt hb) hc

/-! ## Parse errors (`ParseErrorType`, `ParseError`, identical in
`src/utils.rs:93` and `src/functions.rs:54`)

The spec names these kinds `HeaderMissing`, `BadAction`, `BadId`, `BadPort`,
`BadPorts`, `BadHash`; the source constructors are `Type`, `Action`, `ID`,
`Port`, `Ports`, `Hash` wrapped in `Header`/`Other`.  (`Type` is a reserved
word in Lean, so the constructors are lowercased.) -/

inductive ParseErrorType where
  | type
  | action
  | id
  | hash
  | port
  | ports
deriving DecidableEq

inductive ParseError where
  | Header : ParseErrorType → ParseError
  | Other : ParseErrorType → ParseError
deriving DecidableEq

/-- Outcome of running a fallible Rust function that may also `panic!`:
`ok`, `err`, or an aborted thread (`panicked`). -/
inductive RResult (α : Type) where
  | ok : α → RResult α
  | err : ParseError → RResult α
  | panicked : RResult α
deriving DecidableEq

def RResult.bind {α β : Type} : RResult α → (α → RResult β) → RResult β
  | .ok a, f => f a
  | .err e, _ => .err e
  | .panicked, _ => .panicked

/-- `opt.ok_or(e)?` : propagate `none` as the given parse error. -/
def ofOption {α : Type} (o : Option α) (e : ParseError) : RResult α :=
  match o with
  | some a => .ok a
  | none => .err e

/-- A call that panics when the option is `none`
(`PacketAction::from_string`'s `panic!` arm). -/
def ofOptionPanic {α : Type} (o : Option α) : RResult α :=
  match o with
  | some a => .ok a
  | none => .panicked

/-! ## ASCII string constants used by the protocol -/

def strDATA : List Nat := [68, 65, 84, 65]

def strCLOSE : List Nat := [67, 76, 79, 83, 69]

def strAUTH : List Nat := [65, 85, 84, 72]

def strAUTHTRY : List Nat := [65, 85, 84, 72, 84, 82, 89]

def strHEARTBEAT : List Nat := [72, 69, 65, 82, 84, 66, 69, 65, 84]

def strdata : List Nat := [100, 97, 116, 97]

def strclose : List Nat := [99, 108, 111, 115, 101]

def strauth : List Nat := [97, 117, 116, 104]

def strauthtry : List Nat := [97, 117, 116, 104, 116, 114, 121]

def strheartbeat : List Nat := [104, 101, 97, 114, 116, 98, 101, 97, 116]

def strsuccess : List Nat := [115, 117, 99, 99, 101, 115, 115]

def strforbidden : List Nat := [102, 111, 114, 98, 105, 100, 100, 101, 110]

/-! ## The `src/utils.rs` protocol module (five packet kinds) -/

namespace Utils

/-- `PacketAction` (`src/utils.rs:12`). -/
inductive PacketAction where
  | DATA
  | CLOSE
  | AUTH
  | AUTHTRY
  | HEARTBEAT
deriving DecidableEq

/-- `PacketAction::from_string` (`src/utils.rs:148`): lowercases and matches;
the catch-all arm is `panic!("Invalid packet type: …")`, modelled as `none`. -/
def PacketAction.from_string (s : List Nat) : Option PacketAction :=
  let l := lowerStr s
  if l = strdata then some .DATA
  else if l = strclose then some .CLOSE
  else if l = strauth then some .AUTH
  else if l = strauthtry then some .AUTHTRY
  else if l = strheartbeat then some .HEARTBEAT
  else none

/-- `PacketAction::value` (`src/utils.rs:159`). -/
def PacketAction.value : PacketAction → List Nat
  | .DATA => strDATA
  | .CLOSE => strCLOSE
  | .AUTH => strAUTH
  | .AUTHTRY => strAUTHTRY
  | .HEARTBEAT => strHEARTBEAT

/-- `PacketType<Client>` (`src/utils.rs:283`), the result of
`Server::parse_packet`: unit-typed fields of each `Packet` shape are
dropped, populated fields are kept. -/
inductive CPacket where
  | Data (id : Uuid) (sha1 sha512 : List Nat) (body : List Nat)
  | Auth (ports : List Nat) (body : List Nat)
  | Close (id : Uuid) (body : List Nat)
  | AuthTry (body : List Nat)
  | Heartbeat (body : List Nat)
deriving DecidableEq

/-- `PacketType<Server>` (`src/utils.rs:283`), the result of
`Client::parse_packet`; `Data` additionally carries the `u16` port. -/
inductive SPacket where
  | Data (id : Uuid) (port : Nat) (sha1 sha512 : List Nat) (body : List Nat)
  | Auth (body : List Nat)
  | Close (id : Uuid) (body : List Nat)
  | AuthTry (body : List Nat)
  | Heartbeat (body : List Nat)
deriving DecidableEq

/-- `Server::build_data_packet` (`src/utils.rs:348`):
`"DATA {id} {port} {sha1} {sha512}{separator}"` then the raw data bytes;
`String::from_utf8(separator)` must succeed. -/
def Server.build_data_packet (id : Uuid) (port : Nat) (separator data : List Nat) :
    Option (List Nat) :=
  if utf8Valid separator then
    some (strDATA ++ (32 :: (uuidStr id ++ (32 :: (decimalStr port ++
      (32 :: (hash_sha1 data ++ (32 :: (hash_sha512 data ++
        (separator ++ data))))))))))
  else none

/-- `Server::build_close_packet` (`src/utils.rs:364`): `"CLOSE {id}{separator}"`. -/
def Server.build_close_packet (id : Uuid) (separator : List Nat) :
    Option (List Nat) :=
  if utf8Valid separator then some (strCLOSE ++ (32 :: (uuidStr id ++ separator)))
  else none

/-- `Server::build_authtry_packet` (`src/utils.rs:376`):
`"AUTHTRY{separator}success|forbidden"`. -/
def Server.build_authtry_packet (separator : List Nat) (success : Bool) :
    Option (List Nat) :=
  if utf8Valid separator then
    some (strAUTHTRY ++ (separator ++ (if success then strsuccess else strforbidden)))
  else none

/-- `Server::build_heartbeat_packet` (`src/utils.rs:392`):
`"HEARTBEAT{separator}{nonce}"` where the nonce is already a string. -/
def Server.build_heartbeat_packet (separator nonce : List Nat) :
    Option (List Nat) :=
  if utf8Valid separator then some (strHEARTBEAT ++ (separator ++ nonce))
  else none

/-- `Client::build_data_packet` (`src/utils.rs:513`):
`"DATA {id} {sha1} {sha512}{separator}"` then the raw data bytes (no port). -/
def Client.build_data_packet (id : Uuid) (separator data : List Nat) :
    Option (List Nat) :=
  if utf8Valid separator then
    some (strDATA ++ (32 :: (uuidStr id ++ (32 :: (hash_sha1 data ++
      (32 :: (hash_sha512 data ++ (separator ++ data))))))))
  else none

/-- `Client::build_close_packet` (`src/utils.rs:529`): `"CLOSE {id}{separator}"`. -/
def Client.build_close_packet (id : Uuid) (separator : List Nat) :
    Option (List Nat) :=
  if utf8Valid separator then some (strCLOSE ++ (32 :: (uuidStr id ++ separator)))
  else none

/-- `Client::build_auth_packet` (`src/utils.rs:541`):
`"AUTH {p1,p2,…}{separator}{auth}"`; both `auth` and `separator` pass
through `String::from_utf8`. -/
def Client.build_auth_packet (auth : List Nat) (ports : List Nat)
    (separator : List Nat) : Option (List Nat) :=
  if utf8Valid auth ∧ utf8Valid separator then
    some (strAUTH ++ (32 :: (joinComma (ports.map decimalStr) ++ (separator ++ auth))))
  else none

/-- `Client::build_heartbeat_packet` (`src/utils.rs:558`):
`"HEARTBEAT{separator}"` then the raw nonce bytes. -/
def Client.build_heartbeat_packet (separator nonce : List Nat) :
    Option (List Nat) :=
  if utf8Valid separator then some (strHEARTBEAT ++ (separator ++ nonce))
  else none

/-- `Server::parse_packet` (`src/utils.rs:414`), parsing a packet from the
client.  The header must contain a space; the action token is lowercased by
`from_string`, which panics on an unrecognized token. -/
def Server.parse_packet (packet separator : List Nat) : RResult CPacket :=
  (ofOption (split packet separator) (.Header .type)).bind fun hb =>
    (ofOption (split hb.1 [32]) (.Header .action)).bind fun ap =>
      (ofOption (rustFromUtf8 ap.1) (.Other .action)).bind fun actionStr =>
        (ofOptionPanic (PacketAction.from_string actionStr)).bind fun act =>
          match act with
          | .DATA =>
            (ofOption (split ap.2 [32]) (.Header .id)).bind fun ip =>
              (ofOption (rustFromUtf8 ip.1) (.Other .id)).bind fun idStr =>
                (ofOption (uuidParse idStr) (.Other .id)).bind fun id =>
                  (ofOption (split ip.2 [32]) (.Header .hash)).bind fun hh =>
                    (ofOption (rustFromUtf8 hh.1) (.Other .hash)).bind fun sha1s =>
                      (ofOption (rustFromUtf8 hh.2) (.Other .hash)).bind fun sha512s =>
                        .ok (.Data id sha1s sha512s hb.2)
          | .AUTH =>
            (ofOption (rustFromUtf8 ap.2) (.Other .ports)).bind fun portsStr =>
              (ofOption ((splitOnComma portsStr).mapM parseU16) (.Other .ports)).bind
                fun ports => .ok (.Auth ports hb.2)
          | .CLOSE =>
            (ofOption (rustFromUtf8 ap.2) (.Other .id)).bind fun idStr =>
              (ofOption (uuidParse idStr) (.Other .id)).bind fun id =>
                .ok (.Close id hb.2)
          | .AUTHTRY => .err (.Other .type)
          | .HEARTBEAT => .ok (.Heartbeat hb.2)

/-- The header-splitting step of `Client::parse_packet`
(`src/utils.rs:580-595`): when the header has no space, the whole header is
the action token and the field part is empty. -/
def Client.actionOf (header : List Nat) : RResult (PacketAction × List Nat) :=
  match split header [32] with
  | none =>
    (ofOption (rustFromUtf8 header) (.Other .action)).bind fun hdrStr =>
      (ofOptionPanic (PacketAction.from_string hdrStr)).bind fun act =>
        .ok (act, [])
  | some ap =>
    (ofOption (rustFromUtf8 ap.1) (.Other .action)).bind fun aStr =>
      (ofOptionPanic (PacketAction.from_string aStr)).bind fun act =>
        .ok (act, ap.2)

/-- `Client::parse_packet` (`src/utils.rs:574`), parsing a packet from the
server. -/
def Client.parse_packet (packet separator : List Nat) : RResult SPacket :=
  (ofOption (split packet separator) (.Header .type)).bind fun hb =>
    (Client.actionOf hb.1).bind fun actp =>
      match actp.1 with
      | .DATA =>
        (ofOption (split actp.2 [32]) (.Header .id)).bind fun ip =>
          (ofOption (rustFromUtf8 ip.1) (.Other .id)).bind fun idStr =>
            (ofOption (uuidParse idStr) (.Other .id)).bind fun id =>
              (ofOption (split ip.2 [32]) (.Header .port)).bind fun pp =>
                (ofOption (rustFromUtf8 pp.1) (.Other .port)).bind fun portStr =>
                  (ofOption (parseU16 portStr) (.Other .port)).bind fun port =>
                    (ofOption (split pp.2 [32]) (.Header .hash)).bind fun hh =>
                      (ofOption (rustFromUtf8 hh.1) (.Other .hash)).bind fun sha1s =>
                        (ofOption (rustFromUtf8 hh.2) (.Other .hash)).bind
                          fun sha512s => .ok (.Data id port sha1s sha512s hb.2)
      | .CLOSE =>
        (ofOption (rustFromUtf8 actp.2) (.Other .id)).bind fun idStr =>
          (ofOption (uuidParse idStr) (.Other .id)).bind fun id =>
            .ok (.Close id hb.2)
      | .AUTH => .err (.Other .type)
      | .AUTHTRY => .ok (.AuthTry hb.2)
      | .HEARTBEAT => .ok (.Heartbeat hb.2)

end Utils

/-! ## The `src/functions.rs` protocol module (three packet kinds)

`src/functions.rs` carries its own copy of the protocol with only `DATA`,
`CLOSE` and `AUTH`; this is the module the server master
(`src/server/master.rs`) and the client socket loop (`src/client/socket.rs`)
actually import. -/

namespace Fns

/-- `PacketAction` (`src/functions.rs:9`). -/
inductive PacketAction where
  | DATA
  | CLOSE
  | AUTH
deriving DecidableEq

/-- `PacketAction::from_string` (`src/functions.rs:109`); the catch-all arm
is `panic!`, modelled as `none`.  `AUTHTRY` and `HEARTBEAT` tokens also
panic here. -/
def PacketAction.from_string (s : List Nat) : Option PacketAction :=
  let l := lowerStr s
  if l = strdata then some .DATA
  else if l = strclose then some .CLOSE
  else if l = strauth then some .AUTH
  else none

def PacketAction.value : PacketAction → List Nat
  | .DATA => strDATA
  | .CLOSE => strCLOSE
  | .AUTH => strAUTH

/-- `PacketType<Client>` (`src/functions.rs:183`), result of
`Server::parse_packet`. -/
inductive CPacket where
  | Data (id : Uuid) (sha1 sha512 : List Nat) (body : List Nat)
  | Auth (ports : List Nat) (body : List Nat)
  | Close (id : Uuid) (body : List Nat)
deriving DecidableEq

/-- `PacketType<Server>` (`src/functions.rs:183`), result of
`Client::parse_packet`; in `functions.rs` the `port` field lives on every
`Packet<Server, _>` and the parser sets it to `0` for `Close`. -/
inductive SPacket where
  | Data (id : Uuid) (port : Nat) (sha1 sha512 : List Nat) (body : List Nat)
  | Auth (port : Nat) (ports : List Nat) (body : List Nat)
  | Close (id : Uuid) (port : Nat) (body : List Nat)
deriving DecidableEq

/-- `Server::build_data_packet` (`src/functions.rs:239`); the separator is
already a `&str`, so no UTF-8 check and no `Result`. -/
def Server.build_data_packet (id : Uuid) (port : Nat) (separator data : List Nat) :
    List Nat :=
  strDATA ++ (32 :: (uuidStr id ++ (32 :: (decimalStr port ++
    (32 :: (hash_sha1 data ++ (32 :: (hash_sha512 data ++ (separator ++ data)))))))))

/-- `Server::close_connection_packet` (`src/functions.rs:254`):
`"CLOSE {id}{separator}"`. -/
def Server.close_connection_packet (id : Uuid) (separator : List Nat) : List Nat :=
  strCLOSE ++ (32 :: (uuidStr id ++ separator))

/-- `Client::build_data_packet` (`src/functions.rs:352`): no port field. -/
def Client.build_data_packet (id : Uuid) (separator data : List Nat) : List Nat :=
  strDATA ++ (32 :: (uuidStr id ++ (32 :: (hash_sha1 data ++
    (32 :: (hash_sha512 data ++ (separator ++ data)))))))

/-- `Client::close_connection_packet` (`src/functions.rs:367`): note the
format string `"{} {id} 0{separator}"` — a space and a literal `0` follow
the UUID. -/
def Client.close_connection_packet (id : Uuid) (separator : List Nat) : List Nat :=
  strCLOSE ++ (32 :: (uuidStr id ++ (32 :: (48 :: separator))))

/-- `Client::build_auth_packet` (`src/functions.rs:376`):
`"AUTH {p1,p2,…}{separator}{auth}"`; all arguments are already strings. -/
def Client.build_auth_packet (auth : List Nat) (ports : List Nat)
    (separator : List Nat) : List Nat :=
  strAUTH ++ (32 :: (joinComma (ports.map decimalStr) ++ (separator ++ auth)))

/-- `Server::parse_packet` (`src/functions.rs:266`); `Close` uses
`Uuid::try_parse_ascii` directly on the raw bytes. -/
def Server.parse_packet (packet separator : List Nat) : RResult CPacket :=
  (ofOption (split packet separator) (.Header .type)).bind fun hb =>
    (ofOption (split hb.1 [32]) (.Header .action)).bind fun ap =>
      (ofOption (rustFromUtf8 ap.1) (.Other .action)).bind fun actionStr =>
        (ofOptionPanic (PacketAction.from_string actionStr)).bind fun act =>
          match act with
          | .DATA =>
            (ofOption (split ap.2 [32]) (.Header .id)).bind fun ip =>
              (ofOption (rustFromUtf8 ip.1) (.Other .id)).bind fun idStr =>
                (ofOption (uuidParse idStr) (.Other .id)).bind fun id =>
                  (ofOption (split ip.2 [32]) (.Header .hash)).bind fun hh =>
                    (ofOption (rustFromUtf8 hh.1) (.Other .hash)).bind fun sha1s =>
                      (ofOption (rustFromUtf8 hh.2) (.Other .hash)).bind fun sha512s =>
                        .ok (.Data id sha1s sha512s hb.2)
          | .AUTH =>
            (ofOption (rustFromUtf8 ap.2) (.Other .ports)).bind fun portsStr =>
              (ofOption ((splitOnComma portsStr).mapM parseU16) (.Other .ports)).bind
                fun ports => .ok (.Auth ports hb.2)
          | .CLOSE =>
            (ofOption (uuidParse ap.2) (.Other .id)).bind fun id =>
              .ok (.Close id hb.2)

/-- `Client::parse_packet` (`src/functions.rs:394`); unlike the `utils.rs`
client parser there is no spaceless-header special case, and the `AUTH`
catch-all arm returns `Other(Action)`. -/
def Client.parse_packet (packet separator : List Nat) : RResult SPacket :=
  (ofOption (split packet separator) (.Header .type)).bind fun hb =>
    (ofOption (split hb.1 [32]) (.Header .action)).bind fun ap =>
      (ofOption (rustFromUtf8 ap.1) (.Other .action)).bind fun actionStr =>
        (ofOptionPanic (PacketAction.from_string actionStr)).bind fun act =>
          match act with
          | .DATA =>
            (ofOption (split ap.2 [32]) (.Header .id)).bind fun ip =>
              (ofOption (rustFromUtf8 ip.1) (.Other .id)).bind fun idStr =>
                (ofOption (uuidParse idStr) (.Other .id)).bind fun id =>
                  (ofOption (split ip.2 [32]) (.Header .port)).bind fun pp =>
                    (ofOption (rustFromUtf8 pp.1) (.Other .port)).bind fun portStr =>
                      (ofOption (parseU16 portStr) (.Other .port)).bind fun port =>
                        (ofOption (split pp.2 [32]) (.Header .hash)).bind fun hh =>
                          (ofOption (rustFromUtf8 hh.1) (.Other .hash)).bind fun sha1s =>
                            (ofOption (rustFromUtf8 hh.2) (.Other .hash)).bind
                              fun sha512s => .ok (.Data id port sha1s sha512s hb.2)
          | .CLOSE =>
            (ofOption (rustFromUtf8 ap.2) (.Other .id)).bind fun idStr =>
              (ofOption (uuidParse idStr) (.Other .id)).bind fun id =>
                .ok (.Close id 0 hb.2)
          | .AUTH => .err (.Other .action)

end Fns

/-! ## The warning budget (`Warning`, `src/functions.rs:468`)

`warn` increments the `u8` counter and logs a line only while the counter is
still strictly below the total; nothing else happens — in particular no
socket is ever closed here.  The increment is `u8` arithmetic, modelled
modulo `2^8`. -/

structure Warning where
  warns : Nat
  total : Nat
deriving DecidableEq

/-- `Warning::warn` (`src/functions.rs:474`): returns the updated counter
and whether a warning line was logged. -/
def Warning.warn (w : Warning) : Warning × Bool :=
  let warns := (w.warns + 1) % 256
  (⟨warns, w.total⟩, decide (warns < w.total))

/-- `Warning::new` (`src/functions.rs:488`). -/
def Warning.new (total : Nat) : Warning := ⟨0, total⟩

/-! ## The master control-socket handler
(`MasterListener::on_data_received`, `src/server/master.rs:61`)

Shallow state-machine embedding of one call of the hydrogen data callback.
Externally visible state: the `was_authed` flag, the authenticated fd, the
warning counter, the key set of the shared `connections` table, and the list
of ports for which slaves were started.  Effects record what the call did to
the outside world.  `SlaveListener::begin` and socket/lock operations are
modelled as succeeding (their failure arms only log); the handler itself
never writes to the controller socket in any arm. -/

structure MasterConfig where
  separator : List Nat
  auth : List Nat
deriving DecidableEq

structure MasterState where
  wasAuthed : Bool
  authFd : Option Nat
  warn : Warning
  connections : List Uuid
  slaves : List Nat
deriving DecidableEq

structure MasterEffects where
  shutdownController : Bool
  wroteTo : Option (Uuid × List Nat)
  closedConn : Option Uuid
  loggedWarning : Bool
deriving DecidableEq

def MasterEffects.nothing : MasterEffects := ⟨false, none, none, false⟩

def masterOnDataReceived (cfg : MasterConfig) (st : MasterState) (fd : Nat)
    (buffer : List Nat) : RResult (MasterState × MasterEffects) :=
  if st.wasAuthed = false then
    match Fns.Server.parse_packet buffer cfg.separator with
    | .panicked => .panicked
    | .ok pkt =>
      match pkt with
      | .Auth ports body =>
        if cfg.auth = body then
          .ok ({ st with
                  wasAuthed := true
                  authFd := some fd
                  slaves := st.slaves ++ ports }, MasterEffects.nothing)
        else
          .ok (st, MasterEffects.nothing)
      | _ => .ok (st, { MasterEffects.nothing with shutdownController := true })
    | .err _ =>
      let w := st.warn.warn
      .ok ({ st with warn := w.1 },
        { MasterEffects.nothing with loggedWarning := w.2 })
  else
    match Fns.Server.parse_packet buffer cfg.separator with
    | .panicked => .panicked
    | .ok pkt =>
      match pkt with
      | .Data id _ _ body =>
        if id ∈ st.connections then
          .ok (st, { MasterEffects.nothing with wroteTo := some (id, body) })
        else
          .ok (st, MasterEffects.nothing)
      | .Close id _ =>
        if id ∈ st.connections then
          .ok (st, { MasterEffects.nothing with closedConn := some id })
        else
          .ok (st, MasterEffects.nothing)
      | .Auth _ _ =>
        .ok (st, { MasterEffects.nothing with shutdownController := true })
    | .err _ =>
      let w := st.warn.warn
      .ok ({ st with warn := w.1 },
        { MasterEffects.nothing with loggedWarning := w.2 })

/-- The initial handler state built by `MasterListener::start`
(`src/server/master.rs:236`): `was_authed: false`, `warn: Warning::new(5)`,
empty connections, no slaves, no auth fd. -/
def masterInitialState : MasterState :=
  ⟨false, none, Warning.new 5, [], []⟩

/-! ## The client DATA-frame handler
(`src/client/socket.rs:107-144`, inside the `from_server` task)

On a parsed DATA frame: a known bridge id gets the body enqueued; otherwise
the target whose `port` equals the frame's port is looked up with
`.find(…).unwrap()` — `unwrap` on `None` panics — and a new local
connection is dialed (`create_connection`); on dial failure the error is
only logged.  `dialOk` stands for whether `TcpStream::connect` inside
`create_connection` succeeds. -/

structure Target where
  address : List Nat
  port : Nat
deriving DecidableEq

structure ClientEffects where
  enqueued : Option (Uuid × List Nat)
  dialed : Option (List Nat × Nat)
  loggedError : Bool
deriving DecidableEq

def clientHandleData (targets : List Target) (bridges : List Uuid)
    (id : Uuid) (port : Nat) (body : List Nat) (dialOk : Bool) :
    RResult (List Uuid × ClientEffects) :=
  if id ∈ bridges then
    .ok (bridges, ⟨some (id, body), none, false⟩)
  else
    match targets.find? (fun t => t.port == port) with
    | none => .panicked
    | some t =>
      if dialOk then
        .ok (bridges ++ [id], ⟨some (id, body), some (t.address, t.port), false⟩)
      else
        .ok (bridges, ⟨none, some (t.address, t.port), true⟩)

/-! ## Reduction lemmas for the embedded `?` plumbing -/

@[simp]
theorem ofOption_some {α : Type} (a : α) (e : ParseError) :
    ofOption (some a) e = .ok a := rfl

@[simp]
theorem ofOption_none {α : Type} (e : ParseError) :
    ofOption (none : Option α) e = .err e := rfl

@[simp]
theorem ofOptionPanic_some {α : Type} (a : α) :
    ofOptionPanic (some a) = .ok a := rfl

@[simp]
theorem ofOptionPanic_none {α : Type} :
    ofOptionPanic (none : Option α) = .panicked := rfl

@[simp]
theorem RResult.ok_bind {α β : Type} (a : α) (f : α → RResult β) :
    (RResult.ok a).bind f = f a := rfl

@[simp]
theorem RResult.err_bind {α β : Type} (e : ParseError) (f : α → RResult β) :
    (RResult.err e).bind f = .err e := rfl

@[simp]
theorem RResult.panicked_bind {α β : Type} (f : α → RResult β) :
    (RResult.panicked : RResult α).bind f = .panicked := rfl

/-! ## Header-character facts

Every byte of a frame header is printable ASCII strictly above the space:
this separates headers from the `0x20` field separator and the `0x00` frame
separator at once. -/

def headerSafe (l : List Nat) : Prop := ∀ c ∈ l, 32 < c ∧ c ≤ 0x7F

instance (l : List Nat) : Decidable (headerSafe l) := by
  unfold headerSafe
  infer_instance

theorem headerSafe_append {a b : List Nat} (ha : headerSafe a)
    (hb : headerSafe b) : headerSafe (a ++ b) := by
  intro c hc
  rcases List.mem_append.mp hc with h | h
  · exact ha c h
  · exact hb c h

theorem headerSafe_not_zero {l : List Nat} (h : headerSafe l) : 0 ∉ l :=
  fun hc => absurd (h 0 hc).1 (by omega)

theorem headerSafe_not_space {l : List Nat} (h : headerSafe l) : 32 ∉ l :=
  fun hc => absurd (h 32 hc).1 (by omega)

theorem headerSafe_ascii {l : List Nat} (h : headerSafe l) :
    ∀ c ∈ l, c ≤ 0x7F := fun c hc => (h c hc).2

theorem headerSafe_strDATA : headerSafe strDATA := by decide

theorem headerSafe_strCLOSE : headerSafe strCLOSE := by decide

theorem headerSafe_strAUTH : headerSafe strAUTH := by decide

theorem headerSafe_strAUTHTRY : headerSafe strAUTHTRY := by decide

theorem headerSafe_strHEARTBEAT : headerSafe strHEARTBEAT := by decide

theorem headerSafe_uuidStr {id : Uuid} (hid : validUuid id) :
    headerSafe (uuidStr id) := by
  intro c hc
  have h1 := uuidStr_ge_45 hc
  have h2 := uuidStr_ascii hid hc
  omega

theorem headerSafe_hash_sha1 (data : List Nat) : headerSafe (hash_sha1 data) := by
  intro c hc
  have h1 := hash_sha1_ge_48 hc
  have h2 := hash_sha1_ascii hc
  omega

theorem headerSafe_hash_sha512 (data : List Nat) : headerSafe (hash_sha512 data) := by
  intro c hc
  have h1 := hash_sha512_ge_48 hc
  have h2 := hash_sha512_ascii hc
  omega

theorem headerSafe_decimalStr (n : Nat) : headerSafe (decimalStr n) := by
  intro c hc
  have := decimalStr_digits c hc
  omega

theorem headerSafe_joinPorts (ports : List Nat) :
    headerSafe (joinComma (ports.map decimalStr)) := by
  induction ports with
  | nil => intro c hc; cases hc
  | cons p t ih =>
    cases t with
    | nil =>
      have h1 : joinComma ((p :: []).map decimalStr) = decimalStr p := rfl
      rw [h1]
      exact headerSafe_decimalStr p
    | cons q t' =>
      have h1 : joinComma ((p :: q :: t').map decimalStr) =
          decimalStr p ++ 44 :: joinComma ((q :: t').map decimalStr) := rfl
      rw [h1]
      intro c hc
      rcases List.mem_append.mp hc with h | h
      · exact headerSafe_decimalStr p c h
      · rcases List.mem_cons.mp h with rfl | h2
        · omega
        · exact ih c h2

theorem zero_not_mem_append {a b : List Nat} (ha : (0 : Nat) ∉ a)
    (hb : (0 : Nat) ∉ b) : (0 : Nat) ∉ a ++ b := by
  intro hc
  rcases List.mem_append.mp hc with h | h
  · exact ha h
  · exact hb h

theorem zero_not_mem_cons_space {b : List Nat} (hb : (0 : Nat) ∉ b) :
    (0 : Nat) ∉ 32 :: b := by
  intro hc
  rcases List.mem_cons.mp hc with h | h
  · exact absurd h (by omega)
  · exact hb h

/-- The frame-level split of a built packet: header then `0x00` then body. -/
theorem split_frame {header body : List Nat} (h : (0 : Nat) ∉ header) :
    split (header ++ 0 :: body) [0] = some (header, body) :=
  split_single_some h

/-- The header-level split at the first space. -/
theorem split_space {tok rest : List Nat} (h : headerSafe tok) :
    split (tok ++ 32 :: rest) [32] = some (tok, rest) :=
  split_single_some (headerSafe_not_space h)

/-- A header without spaces does not split. -/
theorem split_space_none {tok : List Nat} (h : headerSafe tok) :
    split tok [32] = none :=
  split_single_none (headerSafe_not_space h)

theorem rustFromUtf8_headerSafe {l : List Nat} (h : headerSafe l) :
    rustFromUtf8 l = some l :=
  rustFromUtf8_ascii (headerSafe_ascii h)

/-! ## Round trips of the `utils.rs` builders through the opposite parsers
(separator `"\0"` = `[0]`, the configured default) -/

theorem utils_server_parses_client_data {id : Uuid} {data pkt : List Nat}
    (hid : validUuid id)
    (hbuild : Utils.Client.build_data_packet id [0] data = some pkt) :
    Utils.Server.parse_packet pkt [0] =
      .ok (.Data id (hash_sha1 data) (hash_sha512 data) data) := by
  rw [Utils.Client.build_data_packet, if_pos (by decide)] at hbuild
  have hpkt : pkt = (strDATA ++ (32 :: (uuidStr id ++ (32 :: (hash_sha1 data ++
      (32 :: hash_sha512 data)))))) ++ 0 :: data := by
    rw [← Option.some_inj.mp hbuild]
    simp [List.append_assoc]
  have hsafe : (0 : Nat) ∉ strDATA ++ (32 :: (uuidStr id ++ (32 :: (hash_sha1 data ++
      (32 :: hash_sha512 data))))) :=
    zero_not_mem_append (headerSafe_not_zero headerSafe_strDATA)
      (zero_not_mem_cons_space (zero_not_mem_append
        (headerSafe_not_zero (headerSafe_uuidStr hid))
        (zero_not_mem_cons_space (zero_not_mem_append
          (headerSafe_not_zero (headerSafe_hash_sha1 data))
          (zero_not_mem_cons_space
            (headerSafe_not_zero (headerSafe_hash_sha512 data)))))))
  have hact : Utils.PacketAction.from_string strDATA =
      some Utils.PacketAction.DATA := by decide
  unfold Utils.Server.parse_packet
  rw [hpkt]
  simp only [split_frame hsafe, split_space headerSafe_strDATA,
    split_space (headerSafe_uuidStr hid), split_space (headerSafe_hash_sha1 data),
    rustFromUtf8_headerSafe headerSafe_strDATA,
    rustFromUtf8_headerSafe (headerSafe_uuidStr hid),
    rustFromUtf8_headerSafe (headerSafe_hash_sha1 data),
    rustFromUtf8_headerSafe (headerSafe_hash_sha512 data),
    uuidParse_uuidStr hid, hact, ofOption_some, ofOptionPanic_some,
    RResult.ok_bind]

theorem zero_not_mem_cons {c : Nat} (hc : c ≠ 0) {b : List Nat}
    (hb : (0 : Nat) ∉ b) : (0 : Nat) ∉ c :: b := by
  intro hmem
  rcases List.mem_cons.mp hmem with h | h
  · exact hc h.symm
  · exact hb h

theorem mapM_parseU16_decimal :
    ∀ (ports : List Nat), (∀ p ∈ ports, p ≤ 65535) →
      (ports.map decimalStr).mapM parseU16 = some ports := by
  intro ports
  induction ports with
  | nil => intro _; rfl
  | cons p t ih =>
    intro hlt
    rw [List.map_cons, List.mapM_cons,
      parseU16_decimalStr (hlt p (List.mem_cons_self _ _)),
      ih (fun q hq => hlt q (List.mem_cons_of_mem _ hq))]
    rfl

/-- Comma-joined decimal ports parse back to the original list
(`ports.split(",").map(parse::<u16>)`). -/
theorem parsePorts_joinComma {ports : List Nat} (hne : ports ≠ [])
    (hlt : ∀ p ∈ ports, p ≤ 65535) :
    (splitOnComma (joinComma (ports.map decimalStr))).mapM parseU16 =
      some ports := by
  rw [splitOnComma_joinComma (ports.map decimalStr)
    (by simpa using hne)
    (by
      intro p hp
      obtain ⟨q, _, rfl⟩ := List.mem_map.mp hp
      intro hc
      have := decimalStr_digits 44 hc
      omega)]
  exact mapM_parseU16_decimal ports hlt

theorem utils_client_parses_server_data {id : Uuid} {port : Nat}
    {data pkt : List Nat} (hid : validUuid id) (hport : port ≤ 65535)
    (hbuild : Utils.Server.build_data_packet id port [0] data = some pkt) :
    Utils.Client.parse_packet pkt [0] =
      .ok (.Data id port (hash_sha1 data) (hash_sha512 data) data) := by
  rw [Utils.Server.build_data_packet, if_pos (by decide)] at hbuild
  have hpkt : pkt = (strDATA ++ (32 :: (uuidStr id ++ (32 :: (decimalStr port ++
      (32 :: (hash_sha1 data ++ (32 :: hash_sha512 data)))))))) ++ 0 :: data := by
    rw [← Option.some_inj.mp hbuild]
    simp [List.append_assoc]
  have hsafe : (0 : Nat) ∉ strDATA ++ (32 :: (uuidStr id ++ (32 :: (decimalStr port ++
      (32 :: (hash_sha1 data ++ (32 :: hash_sha512 data))))))) :=
    zero_not_mem_append (headerSafe_not_zero headerSafe_strDATA)
      (zero_not_mem_cons_space (zero_not_mem_append
        (headerSafe_not_zero (headerSafe_uuidStr hid))
        (zero_not_mem_cons_space (zero_not_mem_append
          (headerSafe_not_zero (headerSafe_decimalStr port))
          (zero_not_mem_cons_space (zero_not_mem_append
            (headerSafe_not_zero (headerSafe_hash_sha1 data))
            (zero_not_mem_cons_space
              (headerSafe_not_zero (headerSafe_hash_sha512 data)))))))))
  have hact : Utils.PacketAction.from_string strDATA =
      some Utils.PacketAction.DATA := by decide
  have hactionOf : Utils.Client.actionOf (strDATA ++ (32 :: (uuidStr id ++
      (32 :: (decimalStr port ++ (32 :: (hash_sha1 data ++
        (32 :: hash_sha512 data)))))))) =
      .ok (Utils.PacketAction.DATA, uuidStr id ++ (32 :: (decimalStr port ++
        (32 :: (hash_sha1 data ++ (32 :: hash_sha512 data)))))) := by
    unfold Utils.Client.actionOf
    simp only [split_space headerSafe_strDATA,
      rustFromUtf8_headerSafe headerSafe_strDATA, hact, ofOption_some,
      ofOptionPanic_some, RResult.ok_bind]
  unfold Utils.Client.parse_packet
  rw [hpkt]
  simp only [split_frame hsafe, hactionOf, split_space (headerSafe_uuidStr hid),
    split_space (headerSafe_decimalStr port),
    split_space (headerSafe_hash_sha1 data),
    rustFromUtf8_headerSafe (headerSafe_uuidStr hid),
    rustFromUtf8_headerSafe (headerSafe_decimalStr port),
    rustFromUtf8_headerSafe (headerSafe_hash_sha1 data),
    rustFromUtf8_headerSafe (headerSafe_hash_sha512 data),
    uuidParse_uuidStr hid, parseU16_decimalStr hport, ofOption_some,
    ofOptionPanic_some, RResult.ok_bind]

theorem utils_server_parses_client_close {id : Uuid} {pkt : List Nat}
    (hid : validUuid id)
    (hbuild : Utils.Client.build_close_packet id [0] = some pkt) :
    Utils.Server.parse_packet pkt [0] = .ok (.Close id []) := by
  rw [Utils.Client.build_close_packet, if_pos (by decide)] at hbuild
  have hpkt : pkt = (strCLOSE ++ (32 :: uuidStr id)) ++ 0 :: [] := by
    rw [← Option.some_inj.mp hbuild]
    simp [List.append_assoc]
  have hsafe : (0 : Nat) ∉ strCLOSE ++ (32 :: uuidStr id) :=
    zero_not_mem_append (headerSafe_not_zero headerSafe_strCLOSE)
      (zero_not_mem_cons_space (headerSafe_not_zero (headerSafe_uuidStr hid)))
  have hact : Utils.PacketAction.from_string strCLOSE =
      some Utils.PacketAction.CLOSE := by decide
  unfold Utils.Server.parse_packet
  rw [hpkt]
  simp only [split_frame hsafe, split_space headerSafe_strCLOSE,
    rustFromUtf8_headerSafe headerSafe_strCLOSE,
    rustFromUtf8_headerSafe (headerSafe_uuidStr hid),
    uuidParse_uuidStr hid, hact, ofOption_some, ofOptionPanic_some,
    RResult.ok_bind]

theorem utils_client_parses_server_close {id : Uuid} {pkt : List Nat}
    (hid : validUuid id)
    (hbuild : Utils.Server.build_close_packet id [0] = some pkt) :
    Utils.Client.parse_packet pkt [0] = .ok (.Close id []) := by
  rw [Utils.Server.build_close_packet, if_pos (by decide)] at hbuild
  have hpkt : pkt = (strCLOSE ++ (32 :: uuidStr id)) ++ 0 :: [] := by
    rw [← Option.some_inj.mp hbuild]
    simp [List.append_assoc]
  have hsafe : (0 : Nat) ∉ strCLOSE ++ (32 :: uuidStr id) :=
    zero_not_mem_append (headerSafe_not_zero headerSafe_strCLOSE)
      (zero_not_mem_cons_space (headerSafe_not_zero (headerSafe_uuidStr hid)))
  have hact : Utils.PacketAction.from_string strCLOSE =
      some Utils.PacketAction.CLOSE := by decide
  have hactionOf : Utils.Client.actionOf (strCLOSE ++ (32 :: uuidStr id)) =
      .ok (Utils.PacketAction.CLOSE, uuidStr id) := by
    unfold Utils.Client.actionOf
    simp only [split_space headerSafe_strCLOSE,
      rustFromUtf8_headerSafe headerSafe_strCLOSE, hact, ofOption_some,
      ofOptionPanic_some, RResult.ok_bind]
  unfold Utils.Client.parse_packet
  rw [hpkt]
  simp only [split_frame hsafe, hactionOf,
    rustFromUtf8_headerSafe (headerSafe_uuidStr hid),
    uuidParse_uuidStr hid, ofOption_some, RResult.ok_bind]

theorem utils_server_parses_client_auth {auth : List Nat} {ports : List Nat}
    {pkt : List Nat} (hne : ports ≠ []) (hlt : ∀ p ∈ ports, p ≤ 65535)
    (hbuild : Utils.Client.build_auth_packet auth ports [0] = some pkt) :
    Utils.Server.parse_packet pkt [0] = .ok (.Auth ports auth) := by
  rw [Utils.Client.build_auth_packet] at hbuild
  by_cases hutf : utf8Valid auth
  · rw [if_pos ⟨hutf, by decide⟩] at hbuild
    have hpkt : pkt = (strAUTH ++ (32 :: joinComma (ports.map decimalStr))) ++
        0 :: auth := by
      rw [← Option.some_inj.mp hbuild]
      simp [List.append_assoc]
    have hsafe : (0 : Nat) ∉ strAUTH ++ (32 :: joinComma (ports.map decimalStr)) :=
      zero_not_mem_append (headerSafe_not_zero headerSafe_strAUTH)
        (zero_not_mem_cons_space (headerSafe_not_zero (headerSafe_joinPorts ports)))
    have hact : Utils.PacketAction.from_string strAUTH =
        some Utils.PacketAction.AUTH := by decide
    unfold Utils.Server.parse_packet
    rw [hpkt]
    simp only [split_frame hsafe, split_space headerSafe_strAUTH,
      rustFromUtf8_headerSafe headerSafe_strAUTH,
      rustFromUtf8_headerSafe (headerSafe_joinPorts ports),
      parsePorts_joinComma hne hlt, hact, ofOption_some, ofOptionPanic_some,
      RResult.ok_bind]
  · rw [if_neg (fun hc => hutf hc.1)] at hbuild
    cases hbuild

theorem utils_client_parses_server_authtry {success : Bool} {pkt : List Nat}
    (hbuild : Utils.Server.build_authtry_packet [0] success = some pkt) :
    Utils.Client.parse_packet pkt [0] =
      .ok (.AuthTry (if success then strsuccess else strforbidden)) := by
  rw [Utils.Server.build_authtry_packet, if_pos (by decide)] at hbuild
  have hpkt : pkt = strAUTHTRY ++ 0 :: (if success then strsuccess else strforbidden) := by
    rw [← Option.some_inj.mp hbuild]
    simp
  have hact : Utils.PacketAction.from_string strAUTHTRY =
      some Utils.PacketAction.AUTHTRY := by decide
  have hactionOf : Utils.Client.actionOf strAUTHTRY =
      .ok (Utils.PacketAction.AUTHTRY, []) := by
    unfold Utils.Client.actionOf
    simp only [split_space_none headerSafe_strAUTHTRY,
      rustFromUtf8_headerSafe headerSafe_strAUTHTRY, hact, ofOption_some,
      ofOptionPanic_some, RResult.ok_bind]
  unfold Utils.Client.parse_packet
  rw [hpkt]
  simp only [split_frame (headerSafe_not_zero headerSafe_strAUTHTRY), hactionOf,
    ofOption_some, RResult.ok_bind]

theorem utils_client_parses_server_heartbeat {nonce pkt : List Nat}
    (hbuild : Utils.Server.build_heartbeat_packet [0] nonce = some pkt) :
    Utils.Client.parse_packet pkt [0] = .ok (.Heartbeat nonce) := by
  rw [Utils.Server.build_heartbeat_packet, if_pos (by decide)] at hbuild
  have hpkt : pkt = strHEARTBEAT ++ 0 :: nonce := by
    rw [← Option.some_inj.mp hbuild]
    simp
  have hact : Utils.PacketAction.from_string strHEARTBEAT =
      some Utils.PacketAction.HEARTBEAT := by decide
  have hactionOf : Utils.Client.actionOf strHEARTBEAT =
      .ok (Utils.PacketAction.HEARTBEAT, []) := by
    unfold Utils.Client.actionOf
    simp only [split_space_none headerSafe_strHEARTBEAT,
      rustFromUtf8_headerSafe headerSafe_strHEARTBEAT, hact, ofOption_some,
      ofOptionPanic_some, RResult.ok_bind]
  unfold Utils.Client.parse_packet
  rw [hpkt]
  simp only [split_frame (headerSafe_not_zero headerSafe_strHEARTBEAT), hactionOf,
    ofOption_some, RResult.ok_bind]

/-- A client-built heartbeat has no space in the header, so the server
parser fails at the action split (`src/utils.rs:419`). -/
theorem utils_server_rejects_client_heartbeat {nonce pkt : List Nat}
    (hbuild : Utils.Client.build_heartbeat_packet [0] nonce = some pkt) :
    Utils.Server.parse_packet pkt [0] = .err (.Header .action) := by
  rw [Utils.Client.build_heartbeat_packet, if_pos (by decide)] at hbuild
  have hpkt : pkt = strHEARTBEAT ++ 0 :: nonce := by
    rw [← Option.some_inj.mp hbuild]
    simp
  unfold Utils.Server.parse_packet
  rw [hpkt]
  simp only [split_frame (headerSafe_not_zero headerSafe_strHEARTBEAT),
    split_space_none headerSafe_strHEARTBEAT, ofOption_some, ofOption_none,
    RResult.ok_bind, RResult.err_bind]

/-- Appending two extra bytes to a canonical UUID string breaks the
5th-group length check, so the parser fails. -/
theorem uuidParse_uuidStr_append_two {id : Uuid} (hid : validUuid id)
    (x y : Nat) : uuidParse (uuidStr id ++ [x, y]) = none := by
  obtain ⟨hlen, _⟩ := hid
  have hlA : ((List.take 8 id).map hexChar).length = 8 := by
    rw [List.length_map, List.length_take]
    omega
  have hlB : (((List.drop 8 id).take 4).map hexChar).length = 4 := by
    rw [List.length_map, List.length_take, List.length_drop]
    omega
  have hlC : (((List.drop 12 id).take 4).map hexChar).length = 4 := by
    rw [List.length_map, List.length_take, List.length_drop]
    omega
  have hlD : (((List.drop 16 id).take 4).map hexChar).length = 4 := by
    rw [List.length_map, List.length_take, List.length_drop]
    omega
  have hlE : (((List.drop 20 id).map hexChar) ++ [x, y]).length = 14 := by
    rw [List.length_append, List.length_map, List.length_drop]
    simp
    omega
  have hdash : ∀ r : List Nat, expectDash (45 :: r) = some r := fun r => rfl
  have hstep : uuidStr id ++ [x, y] =
      (List.take 8 id).map hexChar ++
        (45 :: (((List.drop 8 id).take 4).map hexChar ++
          (45 :: (((List.drop 12 id).take 4).map hexChar ++
            (45 :: (((List.drop 16 id).take 4).map hexChar ++
              (45 :: ((List.drop 20 id).map hexChar ++ [x, y])))))))) := by
    unfold uuidStr
    simp [List.append_assoc]
  unfold uuidParse
  rw [hstep]
  rw [List.drop_left' hlA, hdash, Option.some_bind]
  rw [List.drop_left' hlB, hdash, Option.some_bind]
  rw [List.drop_left' hlC, hdash, Option.some_bind]
  rw [List.drop_left' hlD, hdash, Option.some_bind]
  rw [if_neg]
  intro hc
  rw [hlE] at hc
  exact absurd hc.2.2.2.2 (by omega)

/-- `functions.rs`'s client CLOSE builder appends `" 0"`, so the
`functions.rs` server parser's `try_parse_ascii` on `"{id} 0"` fails. -/
theorem fns_server_rejects_client_close {id : Uuid} (hid : validUuid id) :
    Fns.Server.parse_packet (Fns.Client.close_connection_packet id [0]) [0] =
      .err (.Other .id) := by
  have hpkt : Fns.Client.close_connection_packet id [0] =
      (strCLOSE ++ (32 :: (uuidStr id ++ [32, 48]))) ++ 0 :: [] := by
    unfold Fns.Client.close_connection_packet
    simp [List.append_assoc]
  have hsafe : (0 : Nat) ∉ strCLOSE ++ (32 :: (uuidStr id ++ [32, 48])) :=
    zero_not_mem_append (headerSafe_not_zero headerSafe_strCLOSE)
      (zero_not_mem_cons_space (zero_not_mem_append
        (headerSafe_not_zero (headerSafe_uuidStr hid)) (by decide)))
  have hact : Fns.PacketAction.from_string strCLOSE =
      some Fns.PacketAction.CLOSE := by decide
  have hsplit2 : split (strCLOSE ++ (32 :: (uuidStr id ++ [32, 48]))) [32] =
      some (strCLOSE, uuidStr id ++ [32, 48]) :=
    split_space headerSafe_strCLOSE
  unfold Fns.Server.parse_packet
  rw [hpkt]
  simp only [split_frame hsafe, hsplit2,
    rustFromUtf8_headerSafe headerSafe_strCLOSE, hact,
    uuidParse_uuidStr_append_two hid, ofOption_some, ofOption_none,
    ofOptionPanic_some, RResult.ok_bind, RResult.err_bind]

/-! ## Rejection of frames the opposite side built (`AUTHTRY` at the server,
`AUTH` at the client; claim C7's subject) -/

/-- A server-built AUTHTRY frame has no space in its header, so the
`utils.rs` server parser fails at the action split with `Header(Action)` —
the `AUTHTRY => Err(Other(Type))` arm at `src/utils.rs:498` is not even
reached. -/
theorem utils_server_rejects_authtry {success : Bool} {pkt : List Nat}
    (hbuild : Utils.Server.build_authtry_packet [0] success = some pkt) :
    Utils.Server.parse_packet pkt [0] = .err (.Header .action) := by
  rw [Utils.Server.build_authtry_packet, if_pos (by decide)] at hbuild
  have hpkt : pkt = strAUTHTRY ++ 0 :: (if success then strsuccess else strforbidden) := by
    rw [← Option.some_inj.mp hbuild]
    simp
  unfold Utils.Server.parse_packet
  rw [hpkt]
  simp only [split_frame (headerSafe_not_zero headerSafe_strAUTHTRY),
    split_space_none headerSafe_strAUTHTRY, ofOption_some, ofOption_none,
    RResult.ok_bind, RResult.err_bind]

/-- An AUTHTRY header that does contain a space reaches the `AUTHTRY` match
arm (`src/utils.rs:498`) and fails with `Other(Type)`, not with the
`Action` kind. -/
theorem utils_server_authtry_arm {rest body : List Nat}
    (h0 : (0 : Nat) ∉ rest) :
    Utils.Server.parse_packet ((strAUTHTRY ++ (32 :: rest)) ++ 0 :: body) [0] =
      .err (.Other .type) := by
  have hsafe : (0 : Nat) ∉ strAUTHTRY ++ (32 :: rest) :=
    zero_not_mem_append (headerSafe_not_zero headerSafe_strAUTHTRY)
      (zero_not_mem_cons_space h0)
  have hact : Utils.PacketAction.from_string strAUTHTRY =
      some Utils.PacketAction.AUTHTRY := by decide
  unfold Utils.Server.parse_packet
  simp only [split_frame hsafe, split_space headerSafe_strAUTHTRY,
    rustFromUtf8_headerSafe headerSafe_strAUTHTRY, hact, ofOption_some,
    ofOptionPanic_some, RResult.ok_bind]

/-- A client-built AUTH frame is rejected by the `utils.rs` client parser
with `Other(Type)` (the `AUTH` arm at `src/utils.rs:650`). -/
theorem utils_client_rejects_auth {auth ports pkt : List Nat}
    (hbuild : Utils.Client.build_auth_packet auth ports [0] = some pkt) :
    Utils.Client.parse_packet pkt [0] = .err (.Other .type) := by
  rw [Utils.Client.build_auth_packet] at hbuild
  by_cases hutf : utf8Valid auth
  · rw [if_pos ⟨hutf, by decide⟩] at hbuild
    have hpkt : pkt = (strAUTH ++ (32 :: joinComma (ports.map decimalStr))) ++
        0 :: auth := by
      rw [← Option.some_inj.mp hbuild]
      simp [List.append_assoc]
    have hsafe : (0 : Nat) ∉ strAUTH ++ (32 :: joinComma (ports.map decimalStr)) :=
      zero_not_mem_append (headerSafe_not_zero headerSafe_strAUTH)
        (zero_not_mem_cons_space (headerSafe_not_zero (headerSafe_joinPorts ports)))
    have hact : Utils.PacketAction.from_string strAUTH =
        some Utils.PacketAction.AUTH := by decide
    have hactionOf : Utils.Client.actionOf (strAUTH ++
        (32 :: joinComma (ports.map decimalStr))) =
        .ok (Utils.PacketAction.AUTH, joinComma (ports.map decimalStr)) := by
      unfold Utils.Client.actionOf
      simp only [split_space headerSafe_strAUTH,
        rustFromUtf8_headerSafe headerSafe_strAUTH, hact, ofOption_some,
        ofOptionPanic_some, RResult.ok_bind]
    unfold Utils.Client.parse_packet
    rw [hpkt]
    simp only [split_frame hsafe, hactionOf, ofOption_some, RResult.ok_bind]
  · rw [if_neg (fun hc => hutf hc.1)] at hbuild
    cases hbuild

/-! ## Where the parsers panic (claim C3's subject)

`PacketAction::from_string` ends in `panic!("Invalid packet type: …")`, and
both `utils.rs` parsers call it on untrusted input.  The following
definitions extract the action token exactly the way the parsers do, and the
characterization theorems show the parsers panic precisely when that token
is extracted but not recognized. -/

/-- The action token the `utils.rs` server parser hands to `from_string`:
the UTF-8-decoded part of the header before the first space. -/
def serverActionToken (packet separator : List Nat) : Option (List Nat) :=
  (split packet separator).bind fun hb =>
    (split hb.1 [32]).bind fun ap => rustFromUtf8 ap.1

/-- The action token of a header on the `utils.rs` client side: the whole
header when it has no space, the part before the first space otherwise. -/
def clientHeaderToken (header : List Nat) : Option (List Nat) :=
  match split header [32] with
  | none => rustFromUtf8 header
  | some ap => rustFromUtf8 ap.1

def clientActionToken (packet separator : List Nat) : Option (List Nat) :=
  (split packet separator).bind fun hb => clientHeaderToken hb.1

theorem ofOption_bind_panicked {α β : Type} {o : Option α} {e : ParseError}
    {f : α → RResult β} (h : (ofOption o e).bind f = .panicked) :
    ∃ a, o = some a ∧ f a = .panicked := by
  cases o with
  | none => exact absurd h (by simp)
  | some a => exact ⟨a, rfl, by simpa using h⟩

theorem utils_server_parse_panicked_iff (packet separator : List Nat) :
    Utils.Server.parse_packet packet separator = .panicked ↔
      ∃ tok, serverActionToken packet separator = some tok ∧
        Utils.PacketAction.from_string tok = none := by
  unfold Utils.Server.parse_packet serverActionToken
  cases hsp : split packet separator with
  | none => simp
  | some hb =>
    simp only [ofOption_some, RResult.ok_bind, Option.some_bind]
    cases hsp2 : split hb.1 [32] with
    | none => simp
    | some ap =>
      simp only [ofOption_some, RResult.ok_bind, Option.some_bind]
      cases hutf : rustFromUtf8 ap.1 with
      | none => simp
      | some tok =>
        simp only [ofOption_some, RResult.ok_bind, Option.some_bind]
        cases hfs : Utils.PacketAction.from_string tok with
        | none =>
          simp only [ofOptionPanic_none, RResult.panicked_bind]
          constructor
          · intro _
            exact ⟨tok, rfl, hfs⟩
          · intro _
            trivial
        | some act =>
          simp only [ofOptionPanic_some, RResult.ok_bind]
          constructor
          · intro hpan
            exfalso
            cases act with
            | DATA =>
              obtain ⟨_, _, h1⟩ := ofOption_bind_panicked hpan
              obtain ⟨_, _, h2⟩ := ofOption_bind_panicked h1
              obtain ⟨_, _, h3⟩ := ofOption_bind_panicked h2
              obtain ⟨_, _, h4⟩ := ofOption_bind_panicked h3
              obtain ⟨_, _, h5⟩ := ofOption_bind_panicked h4
              obtain ⟨_, _, h6⟩ := ofOption_bind_panicked h5
              cases h6
            | AUTH =>
              obtain ⟨_, _, h1⟩ := ofOption_bind_panicked hpan
              obtain ⟨_, _, h2⟩ := ofOption_bind_panicked h1
              cases h2
            | CLOSE =>
              obtain ⟨_, _, h1⟩ := ofOption_bind_panicked hpan
              obtain ⟨_, _, h2⟩ := ofOption_bind_panicked h1
              cases h2
            | AUTHTRY => cases hpan
            | HEARTBEAT => cases hpan
          · rintro ⟨tok', htok', hfs'⟩
            injection htok' with he
            rw [← he, hfs] at hfs'
            cases hfs'

theorem clientHeaderToken_of_none {header : List Nat}
    (hs : split header [32] = none) :
    clientHeaderToken header = rustFromUtf8 header := by
  unfold clientHeaderToken
  rw [hs]

theorem clientHeaderToken_of_some {header : List Nat} {ap : List Nat × List Nat}
    (hs : split header [32] = some ap) :
    clientHeaderToken header = rustFromUtf8 ap.1 := by
  unfold clientHeaderToken
  rw [hs]

theorem actionOf_of_none {header : List Nat} (hs : split header [32] = none) :
    Utils.Client.actionOf header =
      (ofOption (rustFromUtf8 header) (.Other .action)).bind fun hdrStr =>
        (ofOptionPanic (Utils.PacketAction.from_string hdrStr)).bind fun act =>
          .ok (act, []) := by
  unfold Utils.Client.actionOf
  rw [hs]

theorem actionOf_of_some {header : List Nat} {ap : List Nat × List Nat}
    (hs : split header [32] = some ap) :
    Utils.Client.actionOf header =
      (ofOption (rustFromUtf8 ap.1) (.Other .action)).bind fun aStr =>
        (ofOptionPanic (Utils.PacketAction.from_string aStr)).bind fun act =>
          .ok (act, ap.2) := by
  unfold Utils.Client.actionOf
  rw [hs]

theorem utils_client_actionOf_panicked_iff (header : List Nat) :
    Utils.Client.actionOf header = .panicked ↔
      ∃ tok, clientHeaderToken header = some tok ∧
        Utils.PacketAction.from_string tok = none := by
  cases hs : split header [32] with
  | none =>
    rw [actionOf_of_none hs, clientHeaderToken_of_none hs]
    cases hu : rustFromUtf8 header with
    | none => simp
    | some tok =>
      simp only [ofOption_some, RResult.ok_bind]
      cases hfs : Utils.PacketAction.from_string tok with
      | none =>
        simp only [ofOptionPanic_none, RResult.panicked_bind]
        constructor
        · intro _
          exact ⟨tok, rfl, hfs⟩
        · intro _
          trivial
      | some act =>
        simp only [ofOptionPanic_some, RResult.ok_bind]
        constructor
        · intro hpan
          cases hpan
        · rintro ⟨tok', htok', hfs'⟩
          injection htok' with he
          rw [← he, hfs] at hfs'
          cases hfs'
  | some ap =>
    rw [actionOf_of_some hs, clientHeaderToken_of_some hs]
    cases hu : rustFromUtf8 ap.1 with
    | none => simp
    | some tok =>
      simp only [ofOption_some, RResult.ok_bind]
      cases hfs : Utils.PacketAction.from_string tok with
      | none =>
        simp only [ofOptionPanic_none, RResult.panicked_bind]
        constructor
        · intro _
          exact ⟨tok, rfl, hfs⟩
        · intro _
          trivial
      | some act =>
        simp only [ofOptionPanic_some, RResult.ok_bind]
        constructor
        · intro hpan
          cases hpan
        · rintro ⟨tok', htok', hfs'⟩
          injection htok' with he
          rw [← he, hfs] at hfs'
          cases hfs'

theorem RResult.bind_panicked_elim {α β : Type} {r : RResult α}
    {f : α → RResult β} (h : r.bind f = .panicked) :
    r = .panicked ∨ ∃ a, r = .ok a ∧ f a = .panicked := by
  cases r with
  | ok a => exact Or.inr ⟨a, rfl, by simpa using h⟩
  | err e => exact absurd h (by simp)
  | panicked => exact Or.inl rfl

theorem utils_client_actionOf_ok_token {header : List Nat}
    {actp : Utils.PacketAction × List Nat}
    (h : Utils.Client.actionOf header = .ok actp) :
    ∃ tok, clientHeaderToken header = some tok := by
  cases hs : split header [32] with
  | none =>
    rw [actionOf_of_none hs] at h
    rw [clientHeaderToken_of_none hs]
    cases hu : rustFromUtf8 header with
    | none => rw [hu] at h; cases h
    | some tok => exact ⟨tok, rfl⟩
  | some ap =>
    rw [actionOf_of_some hs] at h
    rw [clientHeaderToken_of_some hs]
    cases hu : rustFromUtf8 ap.1 with
    | none => rw [hu] at h; cases h
    | some tok => exact ⟨tok, rfl⟩

theorem utils_client_parse_panicked_iff (packet separator : List Nat) :
    Utils.Client.parse_packet packet separator = .panicked ↔
      ∃ tok, clientActionToken packet separator = some tok ∧
        Utils.PacketAction.from_string tok = none := by
  unfold Utils.Client.parse_packet clientActionToken
  cases hsp : split packet separator with
  | none => simp
  | some hb =>
    simp only [ofOption_some, RResult.ok_bind, Option.some_bind]
    constructor
    · intro hpan
      rcases RResult.bind_panicked_elim hpan with h | ⟨actp, hok, hcont⟩
      · exact (utils_client_actionOf_panicked_iff hb.1).mp h
      · exfalso
        cases hactp : actp.1 with
        | DATA =>
          rw [hactp] at hcont
          obtain ⟨_, _, h1⟩ := ofOption_bind_panicked hcont
          obtain ⟨_, _, h2⟩ := ofOption_bind_panicked h1
          obtain ⟨_, _, h3⟩ := ofOption_bind_panicked h2
          obtain ⟨_, _, h4⟩ := ofOption_bind_panicked h3
          obtain ⟨_, _, h5⟩ := ofOption_bind_panicked h4
          obtain ⟨_, _, h6⟩ := ofOption_bind_panicked h5
          obtain ⟨_, _, h7⟩ := ofOption_bind_panicked h6
          obtain ⟨_, _, h8⟩ := ofOption_bind_panicked h7
          obtain ⟨_, _, h9⟩ := ofOption_bind_panicked h8
          cases h9
        | CLOSE =>
          rw [hactp] at hcont
          obtain ⟨_, _, h1⟩ := ofOption_bind_panicked hcont
          obtain ⟨_, _, h2⟩ := ofOption_bind_panicked h1
          cases h2
        | AUTH => rw [hactp] at hcont; cases hcont
        | AUTHTRY => rw [hactp] at hcont; cases hcont
        | HEARTBEAT => rw [hactp] at hcont; cases hcont
    · rintro ⟨tok, htok, hfs⟩
      have hpan : Utils.Client.actionOf hb.1 = .panicked :=
        (utils_client_actionOf_panicked_iff hb.1).mpr ⟨tok, htok, hfs⟩
      rw [hpan]
      rfl

/-! ## Behaviour of the master handler on each parse outcome -/

theorem master_preauth_data_close (cfg : MasterConfig) (st : MasterState)
    (fd : Nat) (buffer : List Nat) (pkt : Fns.CPacket)
    (hauth : st.wasAuthed = false)
    (hp : Fns.Server.parse_packet buffer cfg.separator = .ok pkt)
    (hkind : (∃ id s1 s2 body, pkt = .Data id s1 s2 body) ∨
      (∃ id body, pkt = .Close id body)) :
    masterOnDataReceived cfg st fd buffer =
      .ok (st, { MasterEffects.nothing with shutdownController := true }) := by
  unfold masterOnDataReceived
  rw [if_pos hauth, hp]
  rcases hkind with ⟨id, s1, s2, body, rfl⟩ | ⟨id, body, rfl⟩ <;> rfl

theorem master_invalid_auth (cfg : MasterConfig) (st : MasterState)
    (fd : Nat) (buffer : List Nat) (ports : List Nat) (body : List Nat)
    (hauth : st.wasAuthed = false)
    (hp : Fns.Server.parse_packet buffer cfg.separator = .ok (.Auth ports body))
    (hsec : cfg.auth ≠ body) :
    masterOnDataReceived cfg st fd buffer = .ok (st, MasterEffects.nothing) := by
  unfold masterOnDataReceived
  rw [if_pos hauth, hp]
  show (if cfg.auth = body then
      RResult.ok ({ st with
        wasAuthed := true
        authFd := some fd
        slaves := st.slaves ++ ports }, MasterEffects.nothing)
    else .ok (st, MasterEffects.nothing)) = .ok (st, MasterEffects.nothing)
  rw [if_neg hsec]

theorem master_parse_failure (cfg : MasterConfig) (st : MasterState)
    (fd : Nat) (buffer : List Nat) (e : ParseError)
    (hp : Fns.Server.parse_packet buffer cfg.separator = .err e) :
    masterOnDataReceived cfg st fd buffer =
      .ok ({ st with warn := st.warn.warn.1 },
        { MasterEffects.nothing with loggedWarning := st.warn.warn.2 }) := by
  unfold masterOnDataReceived
  by_cases hauth : st.wasAuthed = false
  · rw [if_pos hauth, hp]
  · rw [if_neg hauth, hp]

/-! # The claims -/

/-- C1 (corrected).  Split exactness holds in this form: for a single-byte
separator, splitting at the first occurrence is exact (`prefix ++ sep ++
suffix = buf` with the byte absent from the prefix) and a buffer without
the byte yields `none`; for separators of any length, whenever `split`
returns `some (prefix, suffix)` the three parts reassemble the buffer, and
a buffer with no occurrence at all yields `none`.  The original claim's
"every buffer containing `sep` yields `some`" and "`sep` does not occur in
`prefix`" are false for multi-byte separators (see the counterexample): a
byte that breaks a partial match is consumed without being reconsidered as
the start of a new match. -/
theorem split_exactness :
    (∀ (s : Nat) (pre suf : List Nat), s ∉ pre →
      split (pre ++ s :: suf) [s] = some (pre, suf)) ∧
    (∀ (s : Nat) (buf : List Nat), s ∉ buf → split buf [s] = none) ∧
    (∀ (sep buf pre suf : List Nat), split buf sep = some (pre, suf) →
      pre ++ sep ++ suf = buf) ∧
    (∀ (sep buf : List Nat), (¬ ∃ pre suf, buf = pre ++ sep ++ suf) →
      split buf sep = none) :=
  ⟨fun _ _ _ h => split_single_some h,
   fun _ _ h => split_single_none h,
   fun _ _ _ _ h => split_concat h,
   fun _ _ h => split_none_of_no_occurrence h⟩

theorem split_exactness_witness :
    split ([9, 8] ++ 0 :: [7]) [0] = some ([9, 8], [7]) ∧
    split [2, 3] [1] = none ∧
    ([1] ++ [0] ++ [2] : List Nat) = [1, 0, 2] :=
  ⟨split_exactness.1 0 [9, 8] [7] (by decide),
   split_exactness.2.1 1 [2, 3] (by decide),
   split_exactness.2.2.1 [0] [1, 0, 2] [1] [2] (by decide)⟩

/-- C1 counterexample.  `[97, 98]` occurs in `[97, 97, 98]` (exhibited by
the third conjunct), yet `split` returns `none`; and on
`[97, 97, 98, 97, 98]` it returns a prefix `[97, 97, 98]` in which the
separator occurs. -/
theorem split_exactness_counterexample :
    split [97, 97, 98] [97, 98] = none ∧
    split [97, 97, 98, 97, 98] [97, 98] = some ([97, 97, 98], []) ∧
    [97, 97, 98] = [97] ++ [97, 98] ++ ([] : List Nat) := by decide

/-- C2 (corrected).  With the default separator `"\0"`, builder output round
trips through the opposite parser with identical fields and body for: DATA
in both directions, CLOSE in both directions (`utils.rs` builders), AUTH
with a non-empty port list, AUTHTRY, and server-built HEARTBEAT.  The
remaining cases of the original claim fail: AUTH with an empty port list is
rejected with `Ports` (see the counterexample), a client-built HEARTBEAT is
rejected by the server parser (C6), and the `functions.rs` client CLOSE
builder emits `"CLOSE {id} 0"`, which the `functions.rs` server parser
rejects with `ID` (final conjunct). -/
theorem frame_round_trip :
    (∀ (id : Uuid) (data pkt : List Nat), validUuid id →
      Utils.Client.build_data_packet id [0] data = some pkt →
      Utils.Server.parse_packet pkt [0] =
        .ok (.Data id (hash_sha1 data) (hash_sha512 data) data)) ∧
    (∀ (id : Uuid) (port : Nat) (data pkt : List Nat), validUuid id →
      port ≤ 65535 →
      Utils.Server.build_data_packet id port [0] data = some pkt →
      Utils.Client.parse_packet pkt [0] =
        .ok (.Data id port (hash_sha1 data) (hash_sha512 data) data)) ∧
    (∀ (id : Uuid) (pkt : List Nat), validUuid id →
      Utils.Client.build_close_packet id [0] = some pkt →
      Utils.Server.parse_packet pkt [0] = .ok (.Close id [])) ∧
    (∀ (id : Uuid) (pkt : List Nat), validUuid id →
      Utils.Server.build_close_packet id [0] = some pkt →
      Utils.Client.parse_packet pkt [0] = .ok (.Close id [])) ∧
    (∀ (auth ports pkt : List Nat), ports ≠ [] → (∀ p ∈ ports, p ≤ 65535) →
      Utils.Client.build_auth_packet auth ports [0] = some pkt →
      Utils.Server.parse_packet pkt [0] = .ok (.Auth ports auth)) ∧
    (∀ (success : Bool) (pkt : List Nat),
      Utils.Server.build_authtry_packet [0] success = some pkt →
      Utils.Client.parse_packet pkt [0] =
        .ok (.AuthTry (if success then strsuccess else strforbidden))) ∧
    (∀ (nonce pkt : List Nat),
      Utils.Server.build_heartbeat_packet [0] nonce = some pkt →
      Utils.Client.parse_packet pkt [0] = .ok (.Heartbeat nonce)) ∧
    (∀ (id : Uuid), validUuid id →
      Fns.Server.parse_packet (Fns.Client.close_connection_packet id [0]) [0] =
        .err (.Other .id)) :=
  ⟨fun _ _ _ h1 h2 => utils_server_parses_client_data h1 h2,
   fun _ _ _ _ h1 h2 h3 => utils_client_parses_server_data h1 h2 h3,
   fun _ _ h1 h2 => utils_server_parses_client_close h1 h2,
   fun _ _ h1 h2 => utils_client_parses_server_close h1 h2,
   fun _ _ _ h1 h2 h3 => utils_server_parses_client_auth h1 h2 h3,
   fun _ _ h => utils_client_parses_server_authtry h,
   fun _ _ h => utils_client_parses_server_heartbeat h,
   fun _ h => fns_server_rejects_client_close h⟩

def uuidZero : Uuid := List.replicate 32 0

theorem frame_round_trip_witness :
    Utils.Server.parse_packet (strCLOSE ++ (32 :: (uuidStr uuidZero ++ [0]))) [0] =
      .ok (.Close uuidZero []) ∧
    Utils.Server.parse_packet
      (strAUTH ++ (32 :: (joinComma ([80].map decimalStr) ++ (0 :: [33])))) [0] =
      .ok (.Auth [80] [33]) ∧
    Utils.Client.parse_packet (strHEARTBEAT ++ (0 :: [110])) [0] =
      .ok (.Heartbeat [110]) :=
  ⟨frame_round_trip.2.2.1 uuidZero _ (by decide) (by decide),
   frame_round_trip.2.2.2.2.1 [33] [80] _ (by decide) (by decide) (by decide),
   frame_round_trip.2.2.2.2.2.2.1 [110] _ (by decide)⟩

/-- C2 counterexample.  `build_auth_packet` with an empty port list produces
`"AUTH \0123"`, which the server parser rejects with `Other(Ports)`
(`"".parse::<u16>()` fails), so that builder output does not round trip. -/
theorem frame_round_trip_counterexample :
    Utils.Client.build_auth_packet [49, 50, 51] [] [0] =
      some [65, 85, 84, 72, 32, 0, 49, 50, 51] ∧
    Utils.Server.parse_packet [65, 85, 84, 72, 32, 0, 49, 50, 51] [0] =
      .err (.Other .ports) := by decide

/-- C3 (corrected).  Both `utils.rs` parsers terminate with a packet or one
of the error kinds — except that `PacketAction::from_string` ends in
`panic!`, so each parser panics (aborting the thread) exactly when it
extracts a well-formed action token that is not one of the recognized
actions.  The characterization is exact in both directions. -/
theorem parse_panic_characterization :
    (∀ (packet separator : List Nat),
      Utils.Server.parse_packet packet separator = .panicked ↔
        ∃ tok, serverActionToken packet separator = some tok ∧
          Utils.PacketAction.from_string tok = none) ∧
    (∀ (packet separator : List Nat),
      Utils.Client.parse_packet packet separator = .panicked ↔
        ∃ tok, clientActionToken packet separator = some tok ∧
          Utils.PacketAction.from_string tok = none) :=
  ⟨utils_server_parse_panicked_iff, utils_client_parse_panicked_iff⟩

/-- C3 counterexample.  On the frame `"FOO x\0y"` the server parser panics
(the `panic!` arm of `from_string`), and the client parser panics on
`"FOO\0y"`; neither returns a `BadAction`-style error as claimed. -/
theorem parse_unknown_action_panics :
    Utils.Server.parse_packet ([70, 79, 79, 32, 120] ++ 0 :: [121]) [0] =
      .panicked ∧
    Utils.Client.parse_packet ([70, 79, 79] ++ 0 :: [121]) [0] = .panicked := by
  decide

/-- C4 (confirmed).  Any frame that parses as DATA or CLOSE arriving on a
not-yet-authenticated control socket leaves the whole master state
unchanged (connections table, slave list, `was_authed`, warning counter)
and shuts the controller socket down; no packet is written and no
connection is touched. -/
theorem auth_gating (cfg : MasterConfig) (st : MasterState) (fd : Nat)
    (buffer : List Nat) (pkt : Fns.CPacket)
    (hauth : st.wasAuthed = false)
    (hp : Fns.Server.parse_packet buffer cfg.separator = .ok pkt)
    (hkind : (∃ id s1 s2 body, pkt = .Data id s1 s2 body) ∨
      (∃ id body, pkt = .Close id body)) :
    masterOnDataReceived cfg st fd buffer =
      .ok (st, { MasterEffects.nothing with shutdownController := true }) :=
  master_preauth_data_close cfg st fd buffer pkt hauth hp hkind

theorem auth_gating_witness :
    masterOnDataReceived ⟨[0], [115]⟩ masterInitialState 7
      (strCLOSE ++ (32 :: (uuidStr uuidZero ++ [0]))) =
      .ok (masterInitialState,
        { MasterEffects.nothing with shutdownController := true }) :=
  auth_gating ⟨[0], [115]⟩ masterInitialState 7 _ (.Close uuidZero [])
    (by decide) (by decide) (Or.inr ⟨uuidZero, [], rfl⟩)

/-- C5 (corrected).  On an AUTH frame whose body differs from the configured
secret, the master in the unauthenticated state does nothing at all: it
spawns no slaves and does not mark the session authenticated — but it also
sends no AUTHTRY "forbidden" reply and does not close the controller
socket (the `if` at `src/server/master.rs:72` simply has no else branch,
and the master never builds an AUTHTRY packet anywhere). -/
theorem invalid_auth_ignored (cfg : MasterConfig) (st : MasterState) (fd : Nat)
    (buffer : List Nat) (ports body : List Nat)
    (hauth : st.wasAuthed = false)
    (hp : Fns.Server.parse_packet buffer cfg.separator = .ok (.Auth ports body))
    (hsec : cfg.auth ≠ body) :
    masterOnDataReceived cfg st fd buffer = .ok (st, MasterEffects.nothing) :=
  master_invalid_auth cfg st fd buffer ports body hauth hp hsec

theorem invalid_auth_ignored_witness :
    masterOnDataReceived ⟨[0], [97]⟩ masterInitialState 9
      [65, 85, 84, 72, 32, 49, 0, 98] =
      .ok (masterInitialState, MasterEffects.nothing) :=
  invalid_auth_ignored ⟨[0], [97]⟩ masterInitialState 9 _ [1] [98]
    (by decide) (by decide) (by decide)

/-- C5 counterexample.  `"AUTH 3000\0w"` against secret `"sec"`: the handler
returns the state unchanged with the all-false effect record — no AUTHTRY
frame is emitted (`wroteTo = none` and the handler has no controller-write
path at all) and the controller socket is not shut down
(`shutdownController = false`), contradicting the claimed
AUTHTRY-forbidden reply and transition to CLOSING. -/
theorem invalid_auth_counterexample :
    masterOnDataReceived ⟨[0], [115, 101, 99]⟩ masterInitialState 7
      [65, 85, 84, 72, 32, 51, 48, 48, 48, 0, 119] =
      .ok (masterInitialState, ⟨false, none, none, false⟩) := by decide

/-- C6 (code_bug).  The header of a client-built heartbeat frame
(`"HEARTBEAT{sep}{nonce}"`, per the builder and the `PacketAction` doc
comment) contains no space, so `Server::parse_packet` fails at its
unconditional action split (`src/utils.rs:419`) with `Header(Action)`
instead of accepting the frame: the server cannot parse any heartbeat the
client can build. -/
theorem server_cannot_parse_client_heartbeat (nonce pkt : List Nat)
    (hbuild : Utils.Client.build_heartbeat_packet [0] nonce = some pkt) :
    Utils.Server.parse_packet pkt [0] = .err (.Header .action) :=
  utils_server_rejects_client_heartbeat hbuild

theorem server_cannot_parse_client_heartbeat_witness :
    Utils.Server.parse_packet
      [72, 69, 65, 82, 84, 66, 69, 65, 84, 0, 110] [0] =
      .err (.Header .action) :=
  server_cannot_parse_client_heartbeat [110] _ (by decide)

/-- C7 (corrected).  A server-built AUTHTRY frame is rejected by the server
parser with `Header(Action)` (its header has no space, so the AUTHTRY match
arm is never reached); an AUTHTRY header that does contain a space reaches
line 498 and fails with `Other(Type)`; and a well-formed AUTH frame is
rejected by the client parser with `Other(Type)` (line 650) — not with the
`Action` error kind the claim names for that side. -/
theorem unexpected_kind_errors :
    (∀ (success : Bool) (pkt : List Nat),
      Utils.Server.build_authtry_packet [0] success = some pkt →
      Utils.Server.parse_packet pkt [0] = .err (.Header .action)) ∧
    (∀ (rest body : List Nat), (0 : Nat) ∉ rest →
      Utils.Server.parse_packet ((strAUTHTRY ++ (32 :: rest)) ++ 0 :: body) [0] =
        .err (.Other .type)) ∧
    (∀ (auth ports pkt : List Nat),
      Utils.Client.build_auth_packet auth ports [0] = some pkt →
      Utils.Client.parse_packet pkt [0] = .err (.Other .type)) :=
  ⟨fun _ _ h => utils_server_rejects_authtry h,
   fun _ _ h => utils_server_authtry_arm h,
   fun _ _ _ h => utils_client_rejects_auth h⟩

theorem unexpected_kind_errors_witness :
    Utils.Server.parse_packet [65, 85, 84, 72, 84, 82, 89, 0, 115, 117, 99,
      99, 101, 115, 115] [0] = .err (.Header .action) ∧
    Utils.Server.parse_packet ((strAUTHTRY ++ (32 :: [120])) ++ 0 :: [121]) [0] =
      .err (.Other .type) ∧
    Utils.Client.parse_packet [65, 85, 84, 72, 32, 50, 48, 0, 122] [0] =
      .err (.Other .type) :=
  ⟨unexpected_kind_errors.1 true _ (by decide),
   unexpected_kind_errors.2.1 [120] [121] (by decide),
   unexpected_kind_errors.2.2 [122] [20] _ (by decide)⟩

/-- C7 counterexample.  The client parser rejects the well-formed AUTH frame
`"AUTH 1\0b"` with `Other(Type)` ("Invalid packet: Invalid type"), which is
neither of the two `Action`-kind errors, so the claimed `BadAction` failure
is wrong for the client side. -/
theorem unexpected_kind_counterexample :
    Utils.Client.parse_packet [65, 85, 84, 72, 32, 49, 0, 98] [0] =
      .err (.Other .type) ∧
    (RResult.err (.Other .type) ≠
      (RResult.err (.Other .action) : RResult Utils.SPacket)) ∧
    (RResult.err (.Other .type) ≠
      (RResult.err (.Header .action) : RResult Utils.SPacket)) := by decide

/-- C8 (corrected).  On an incoming DATA frame whose id is not in the bridge
table and whose port matches no configured target, the client does not drop
the frame and log: the target lookup ends in `.unwrap()` on `None`
(`src/client/socket.rs:114-119`), so the receive task panics — the bridge
table is never updated and no local connection is dialed, but the client
aborts rather than continuing. -/
theorem unroutable_port_panics (targets : List Target) (bridges : List Uuid)
    (id : Uuid) (port : Nat) (body : List Nat) (dialOk : Bool)
    (hid : id ∉ bridges) (hport : ∀ t ∈ targets, t.port ≠ port) :
    clientHandleData targets bridges id port body dialOk = .panicked := by
  unfold clientHandleData
  rw [if_neg hid]
  have hfind : targets.find? (fun t => t.port == port) = none := by
    rw [List.find?_eq_none]
    intro t ht
    simpa using hport t ht
  rw [hfind]

theorem unroutable_port_panics_witness :
    clientHandleData [⟨[98], 5⟩] [] uuidZero 6 [2] false = .panicked :=
  unroutable_port_panics [⟨[98], 5⟩] [] uuidZero 6 [2] false (by decide)
    (by decide)

/-- C8 counterexample.  Targets configured for port 3000 only, and a DATA
frame for port 4000 with a fresh id: the handler outcome is a panic — the
process aborts instead of dropping the frame and logging as claimed. -/
theorem unroutable_port_counterexample :
    clientHandleData [⟨[97], 3000⟩] [] uuidZero 4000 [1] true = .panicked := by
  decide

/-- C9 (corrected).  Each protocol parse failure increments the per-session
warning counter (`u8`, modelled mod 256) and a warning line is logged only
while the counter is still below the budget of 5; the session is never
closed by this mechanism — the effect record of the parse-failure arm has
`shutdownController = false` always, and `Warning::warn` only logs. -/
theorem warning_budget_behaviour :
    (∀ (cfg : MasterConfig) (st : MasterState) (fd : Nat) (buffer : List Nat)
      (e : ParseError),
      Fns.Server.parse_packet buffer cfg.separator = .err e →
      masterOnDataReceived cfg st fd buffer =
        .ok ({ st with warn := st.warn.warn.1 },
          { MasterEffects.nothing with loggedWarning := st.warn.warn.2 })) ∧
    (∀ w : Warning, w.warn.1.warns = (w.warns + 1) % 256 ∧
      (w.warn.2 = true ↔ (w.warns + 1) % 256 < w.total)) :=
  ⟨fun cfg st fd buffer e hp => master_parse_failure cfg st fd buffer e hp,
   fun w => ⟨rfl, by
    unfold Warning.warn
    exact decide_eq_true_iff⟩⟩

theorem warning_budget_witness :
    masterOnDataReceived ⟨[0], []⟩ masterInitialState 3 [2] =
      .ok ({ masterInitialState with warn := ⟨1, 5⟩ },
        { MasterEffects.nothing with loggedWarning := true }) ∧
    (⟨0, 5⟩ : Warning).warn.1.warns = 1 :=
  ⟨warning_budget_behaviour.1 ⟨[0], []⟩ masterInitialState 3 [2]
    (.Header .type) (by decide),
   (warning_budget_behaviour.2 ⟨0, 5⟩).1⟩

/-- C9 counterexample.  The 5th parse failure of a session (counter at 4,
budget 5): the counter reaches the budget, nothing is logged any more, and
the controller socket is not shut down — the session stays open,
contradicting "after the 5th such event the session is closed". -/
theorem warning_budget_counterexample :
    masterOnDataReceived ⟨[0], [115]⟩ ⟨false, none, ⟨4, 5⟩, [], []⟩ 7 [1] =
      .ok (⟨false, none, ⟨5, 5⟩, [], []⟩, ⟨false, none, none, false⟩) := by
  decide

/-- The AUTH frame as the spec words it: the ASCII text `"AUTH "`, the
comma-joined decimal ports, the separator bytes, then the secret bytes.
(Spec-side definition, for comparison with the builder.) -/
def authFrameSpec (secret ports separator : List Nat) : List Nat :=
  strAUTH ++ [32] ++ joinComma (ports.map decimalStr) ++ separator ++ secret

/-- C10 (confirmed).  `build_auth("123", [3000, 4000, 5000], "\0")` yields
exactly the 23 bytes `41 55 54 48 20 33 30 30 30 2C 34 30 30 30 2C 35 30
30 30 00 31 32 33`, and in general the builder emits exactly the
spec-described frame `"AUTH " ++ ports ++ sep ++ secret` whenever the
secret and separator are valid UTF-8. -/
theorem auth_packet_bytes :
    Utils.Client.build_auth_packet [49, 50, 51] [3000, 4000, 5000] [0] =
      some [0x41, 0x55, 0x54, 0x48, 0x20, 0x33, 0x30, 0x30, 0x30, 0x2C,
        0x34, 0x30, 0x30, 0x30, 0x2C, 0x35, 0x30, 0x30, 0x30, 0x00,
        0x31, 0x32, 0x33] ∧
    (∀ (auth ports separator : List Nat), utf8Valid auth = true →
      utf8Valid separator = true →
      Utils.Client.build_auth_packet auth ports separator =
        some (authFrameSpec auth ports separator)) := by
  constructor
  · decide
  · intro auth ports separator h1 h2
    unfold Utils.Client.build_auth_packet authFrameSpec
    rw [if_pos ⟨h1, h2⟩]
    simp [List.append_assoc]

theorem auth_packet_bytes_witness :
    utf8Valid [97] = true ∧ utf8Valid [0] = true ∧
    Utils.Client.build_auth_packet [97] [1, 2] [0] =
      some (authFrameSpec [97] [1, 2] [0]) :=
  ⟨by decide, by decide, auth_packet_bytes.2 [97] [1, 2] [0] (by decide)
    (by decide)⟩

end ProxyProof
